import Mathlib

/-!
Verification development for the mcp-fair-shake legislation parser core.

The Python source is shallowly embedded: strings are Lean `String`
(`String.data : List Char`), regular-expression matches are hand-translated
character-level matchers with the same greedy/backtracking semantics as the
original patterns, Python dicts used as registries become association lists
with overwrite-on-assign semantics, and fallible code returns `Except`.
Only the ASCII behaviour of the Python `str.lower`, `str.strip` and the `\d`,
`\s`, `\w` character classes is modelled, which covers every character class
decision the source patterns actually make on the claimed inputs.
-/

namespace FairShake

/-! ## Character classes and string utilities -/
/-- ASCII lowercasing of one character, as Python `str.lower` acts on ASCII. -/
def lowerChar (c : Char) : Char :=
  if 65 ≤ c.toNat && c.toNat ≤ 90 then Char.ofNat (c.toNat + 32) else c

/-- Python `str.lower` (ASCII range). -/
def pyLower (s : String) : String := ⟨s.data.map lowerChar⟩

/-- `\d` — ASCII digit. -/
def isDigitC (c : Char) : Bool := 48 ≤ c.toNat && c.toNat ≤ 57

/-- `[a-z]`. -/
def isLowerC (c : Char) : Bool := 97 ≤ c.toNat && c.toNat ≤ 122

/-- `[A-Z]`. -/
def isUpperC (c : Char) : Bool := 65 ≤ c.toNat && c.toNat ≤ 90

/-- `\s` — whitespace as Python regex sees it in the ASCII range. -/
def isSpaceC (c : Char) : Bool :=
  c.toNat = 32 || c.toNat = 9 || c.toNat = 10 || c.toNat = 13 || c.toNat = 11 || c.toNat = 12

/-- `\w` — word character (ASCII range): letter, digit or underscore. -/
def isWordC (c : Char) : Bool := isDigitC c || isLowerC c || isUpperC c || c.toNat = 95

/-- U+2011 non-breaking hyphen, one of the dash variants in federal Part headings. -/
def nbHyphen : Char := Char.ofNat 0x2011

/-- U+2014 em dash, the usual heading separator. -/
def emDash : Char := Char.ofNat 0x2014

/-- Python `str.strip` from the left (ASCII whitespace). -/
def stripLeft (cs : List Char) : List Char := cs.dropWhile isSpaceC

/-- Python `str.strip` from the right (ASCII whitespace). -/
def stripRight (cs : List Char) : List Char :=
  (cs.reverse.dropWhile isSpaceC).reverse

/-- Python `str.strip`. -/
def stripBoth (cs : List Char) : List Char := stripRight (stripLeft cs)

/-- `str.strip` on strings. -/
def stripS (s : String) : String := ⟨stripBoth s.data⟩

/-- `str.rstrip` on strings. -/
def rstripS (s : String) : String := ⟨stripRight s.data⟩

/-- `text.split("\n")` — split at every newline, keeping empty pieces. -/
def splitNL : List Char → List (List Char)
  | [] => [[]]
  | c :: rest =>
    if c.toNat = 10 then [] :: splitNL rest
    else
      match splitNL rest with
      | [] => [[c]]
      | l :: ls => (c :: l) :: ls

/-- Lines of a string, as Python `text.split("\n")` produces them. -/
def linesOf (s : String) : List String := (splitNL s.data).map String.mk

/-- `sep.join(xs)`. -/
def joinSep (sep : String) : List String → String
  | [] => ""
  | [x] => x
  | x :: y :: rest => x ++ sep ++ joinSep sep (y :: rest)

/-- Does `pre` occur at the start of `cs` (case-sensitive)? -/
def listStarts : List Char → List Char → Bool
  | [], _ => true
  | _ :: _, [] => false
  | p :: ps, c :: cs => p == c && listStarts ps cs

/-- Case-insensitive prefix test, comparing after ASCII lowering. -/
def listStartsCI (pre cs : List Char) : Bool :=
  listStarts (pre.map lowerChar) (cs.map lowerChar)

/-- Substring containment (used for the Victorian footer filter). -/
def containsSub (needle : List Char) : List Char → Bool
  | [] => listStarts needle []
  | c :: rest => listStarts needle (c :: rest) || containsSub needle rest

/-! ## Canonical identifiers (`canonical_id.py`) -/
/-- `VALID_JURISDICTIONS`. -/
def validJurisdictions : List String :=
  ["au-federal", "au-victoria", "au-nsw", "au-queensland", "au-sa",
   "au-wa", "au-tasmania", "au-nt", "au-act"]

/-- The keys of `VALID_CODE_TYPES`. -/
def validCodeTypes : List String :=
  ["fwa", "fwr", "ma", "ohs", "eoa", "lsl", "wca", "aca"]

/-- `CanonicalID` dataclass. -/
structure CanonicalID where
  jurisdiction : String
  codeType : String
  year : String
  sectionPart : Option String
deriving Repr, DecidableEq

/-- `[a-z-]` — jurisdiction segment characters. -/
def isJurC (c : Char) : Bool := isLowerC c || c.toNat = 45

/-- `[a-z0-9.]` — section segment characters. -/
def isSecC (c : Char) : Bool := isLowerC c || isDigitC c || c.toNat = 46

/-- The newline character. -/
def chr10 : Char := Char.ofNat 10

/-- Remove a single trailing newline when one is present (the part of an
accepted input that the `$` anchor leaves outside every captured group). -/
def chompNLList (cs : List Char) : List Char :=
  match cs.reverse with
  | c :: rest => if c == chr10 then rest.reverse else cs
  | [] => cs

/-- `chompNLList` on strings. -/
def chompNL (s : String) : String := ⟨chompNLList s.data⟩

/-- The end anchor `$` of a Python regex (no MULTILINE): it matches at
the very end of the input or just before a single trailing newline. -/
def dollarEnd : List Char → Bool
  | [] => true
  | [c] => c == chr10
  | _ => false

/-- The anchored pattern `^/([a-z-]+)/([a-z]+)/(\d{4,6})(?:/([a-z0-9.]+))?$`
applied to an (already lowered) character list.  Each character class
excludes `/`, so the greedy match is equivalent to taking maximal class
runs and requiring the separators and the end anchor afterwards; the `$`
anchor also accepts a single trailing newline (`dollarEnd`), which is
then not part of any captured group. -/
def cidMatch (cs : List Char) : Option (List Char × List Char × List Char × Option (List Char)) :=
  match cs with
  | '/' :: r0 =>
    let j := r0.takeWhile isJurC
    let r1 := r0.dropWhile isJurC
    if j.isEmpty then none else
    match r1 with
    | '/' :: r2 =>
      let c := r2.takeWhile isLowerC
      let r3 := r2.dropWhile isLowerC
      if c.isEmpty then none else
      match r3 with
      | '/' :: r4 =>
        let y := r4.takeWhile isDigitC
        let r5 := r4.dropWhile isDigitC
        if 4 ≤ y.length && y.length ≤ 6 then
          if dollarEnd r5 then some (j, c, y, none)
          else
            match r5 with
            | '/' :: r6 =>
              let t := r6.takeWhile isSecC
              let r7 := r6.dropWhile isSecC
              if !t.isEmpty && dollarEnd r7 then some (j, c, y, some t) else none
            | _ => none
        else none
      | _ => none
    | _ => none
  | _ => none

/-- `parse_canonical_id`: match the lowered input, then validate the
jurisdiction and code type against the closed sets. -/
def parseCanonicalId (canonicalId : String) : Option CanonicalID :=
  match cidMatch (canonicalId.data.map lowerChar) with
  | none => none
  | some (j, c, y, sec) =>
    let js := String.mk j
    let cs := String.mk c
    if validJurisdictions.contains js then
      if validCodeTypes.contains cs then
        some ⟨js, cs, String.mk y, sec.map String.mk⟩
      else none
    else none

/-- `validate_canonical_id`. -/
def validateCanonicalId (canonicalId : String) : Bool :=
  (parseCanonicalId canonicalId).isSome

/-- `build_canonical_id`: lowercases jurisdiction and code type, validates
only those two against the closed sets, then concatenates.  A `None` or
empty section (Python falsiness) is omitted. -/
def buildCanonicalId (jurisdiction codeType year : String)
    (sectionPart : Option String := none) : Except String String :=
  let j := pyLower jurisdiction
  let c := pyLower codeType
  if !(validJurisdictions.contains j) then
    Except.error ("Invalid jurisdiction: " ++ j)
  else if !(validCodeTypes.contains c) then
    Except.error ("Invalid code type: " ++ c)
  else
    let base := "/" ++ j ++ "/" ++ c ++ "/" ++ year
    Except.ok (match sectionPart with
      | some s => if s = "" then base else base ++ "/" ++ s
      | none => base)

/-- Is an `Except` a success? -/
def exOk : Except String String → Bool
  | Except.ok _ => true
  | Except.error _ => false

/-! ## Cross references (`cross_references.py`)

Confidence scores are the decimal literals of the source, modelled exactly
as rationals. -/
/-- The source literal `0.9`, as a rational in lowest terms (stated in
normalized form so that equality of cross references is kernel-decidable). -/
def conf09 : Rat := ⟨9, 10, by norm_num, by norm_num⟩

/-- The source literal `0.8`. -/
def conf08 : Rat := ⟨4, 5, by norm_num, by norm_num⟩

/-- The source literal `0.5`. -/
def conf05 : Rat := ⟨1, 2, by norm_num, by norm_num⟩

/-- `CrossReference` dataclass. -/
structure CrossReference where
  sourceCanonicalId : String
  targetCanonicalId : Option String
  citationText : String
  sectionRef : Option String
  confidence : Rat
deriving Repr, DecidableEq

/-- `(?:\(\d+\))?` — optionally consume a parenthesised digit group,
returning the consumed characters and the rest. -/
def parenDigits (cs : List Char) : List Char × List Char :=
  match cs with
  | '(' :: r0 =>
    let ds := r0.takeWhile isDigitC
    if ds.isEmpty then ([], cs) else
    match r0.drop ds.length with
    | ')' :: r1 => ('(' :: ds ++ [')'], r1)
    | _ => ([], cs)
  | _ => ([], cs)

/-- `(?:\([a-z]\))?` under IGNORECASE — optionally consume a parenthesised
single letter. -/
def parenLetter (cs : List Char) : List Char × List Char :=
  match cs with
  | '(' :: c :: ')' :: r0 =>
    if isLowerC c || isUpperC c then (['(', c, ')'], r0) else ([], cs)
  | _ => ([], cs)

/-- Try `(?:section|s\.|s\s)(\d+[A-Z]?(?:\(\d+\))?(?:\([a-z]\))?)` with
IGNORECASE at the start of `cs`.  The three alternatives are tried in
order; committing to the first that matches is faithful because their
leading characters make at most one alternative viable at any position.
Returns `(whole match, group 1, rest)`. -/
def sectionCiteAt (cs : List Char) : Option (List Char × List Char × List Char) :=
  let pre : Option (List Char × List Char) :=
    if listStartsCI "section".data cs then some (cs.take 7, cs.drop 7)
    else if listStartsCI "s.".data cs then some (cs.take 2, cs.drop 2)
    else match cs with
      | a :: b :: rest =>
        if lowerChar a == 's' && isSpaceC b then some ([a, b], rest) else none
      | _ => none
  match pre with
  | none => none
  | some (p, r0) =>
    let ds := r0.takeWhile isDigitC
    if ds.isEmpty then none else
    let r1 := r0.drop ds.length
    let lw : List Char × List Char :=
      match r1 with
      | c :: rest => if isUpperC c || isLowerC c then ([c], rest) else ([], r1)
      | [] => ([], r1)
    let pd := parenDigits lw.2
    let pl := parenLetter pd.2
    let grp := ds ++ lw.1 ++ pd.1 ++ pl.1
    some (p ++ grp, grp, pl.2)

/-- `finditer` for the section pattern: scan left to right, emitting
non-overlapping matches and resuming after each match end. -/
def scanSectionCites : Nat → List Char → List (List Char × List Char)
  | 0, _ => []
  | _, [] => []
  | Nat.succ fuel, c :: rest =>
    match sectionCiteAt (c :: rest) with
    | some (whole, grp, after) => (whole, grp) :: scanSectionCites fuel after
    | none => scanSectionCites fuel rest

/-- The Act-name alternatives of the `act_reference` pattern, in source
order.  Their first letters are pairwise distinct, so committing to the
first alternative that matches is faithful to the regex alternation. -/
def actPhrases : List String :=
  ["Fair Work", "Occupational Health and Safety", "Equal Opportunity",
   "Long Service Leave", "Workers Compensation", "Accident Compensation"]

/-- Pick the first phrase matching case-insensitively at the head. -/
def pickPhrase (cs : List Char) : List String → Option (List Char × List Char)
  | [] => none
  | ph :: rest =>
    if listStartsCI ph.data cs then some (cs.take ph.length, cs.drop ph.length)
    else pickPhrase cs rest

/-- Try `((?:…)\s+Act\s+\d{4})` with IGNORECASE at the start of `cs`,
returning `(matched text, rest)`. -/
def actCiteAt (cs : List Char) : Option (List Char × List Char) :=
  match pickPhrase cs actPhrases with
  | none => none
  | some (ph, r0) =>
    let sp1 := r0.takeWhile isSpaceC
    if sp1.isEmpty then none else
    let r1 := r0.drop sp1.length
    if listStartsCI "act".data r1 then
      let r2 := r1.drop 3
      let sp2 := r2.takeWhile isSpaceC
      if sp2.isEmpty then none else
      let r3 := r2.drop sp2.length
      match r3 with
      | d1 :: d2 :: d3 :: d4 :: rest =>
        if isDigitC d1 && isDigitC d2 && isDigitC d3 && isDigitC d4 then
          some (ph ++ sp1 ++ r1.take 3 ++ sp2 ++ [d1, d2, d3, d4], rest)
        else none
      | _ => none
    else none

/-- `finditer` for the `act_reference` pattern. -/
def scanActCites : Nat → List Char → List (List Char)
  | 0, _ => []
  | _, [] => []
  | Nat.succ fuel, c :: rest =>
    match actCiteAt (c :: rest) with
    | some (whole, after) => whole :: scanActCites fuel after
    | none => scanActCites fuel rest

/-- `ACT_NAME_TO_ID`. -/
def actNameToId : List (String × String) :=
  [("fair work act 2009", "/au-federal/fwa/2009"),
   ("occupational health and safety act 2004", "/au-victoria/ohs/2004"),
   ("equal opportunity act 2010", "/au-victoria/eoa/2010"),
   ("long service leave act 2018", "/au-victoria/lsl/2018"),
   ("workers compensation act 1958", "/au-victoria/wca/1958"),
   ("accident compensation act 1985", "/au-victoria/aca/1985")]

/-- Dict lookup (`ACT_NAME_TO_ID.get`). -/
def lookupActName (k : String) : Option String :=
  (actNameToId.find? (fun p => p.1 == k)).map (·.2)

/-- The first loop of `parse_cross_references`: section references within
the same Act, each resolving to `{source_id}/s{N}` at confidence 0.9. -/
def sectionPassRefs (content src : String) : List CrossReference :=
  (scanSectionCites content.data.length content.data).map (fun m =>
    { sourceCanonicalId := src
      targetCanonicalId := some (src ++ "/s" ++ String.mk m.2)
      citationText := String.mk m.1
      sectionRef := some (String.mk m.2)
      confidence := conf09 })

/-- The second loop of `parse_cross_references`: references to other Acts,
resolved through `ACT_NAME_TO_ID` when the lowered title is known. -/
def actPassRefs (content src : String) : List CrossReference :=
  (scanActCites content.data.length content.data).map (fun whole =>
    let target := lookupActName (pyLower (String.mk whole))
    { sourceCanonicalId := src
      targetCanonicalId := target
      citationText := String.mk whole
      sectionRef := none
      confidence := if target.isSome then conf08 else conf05 })

/-- `parse_cross_references`: the two passes concatenated. -/
def parseCrossReferences (content src : String) : List CrossReference :=
  sectionPassRefs content src ++ actPassRefs content src

/-! ## Provision nodes and the registry (`models/legislation.py`)

The pydantic class hierarchy is embedded as one record with a kind tag;
fields a given kind never sets keep their defaults, exactly as the unused
optional fields of the Python models do.  The `references`/`referenced_by`
lists are omitted: no parser code ever touches them. -/
inductive NodeKind
  | act | part | division | sect | subsect | para
deriving Repr, DecidableEq

structure Node where
  id : String
  kind : NodeKind
  title : String
  content : String
  parentId : Option String := none
  childrenIds : List String := []
  jurisdiction : String := ""
  year : String := ""
  parts : List String := []
  sections : List String := []
  actId : String := ""
  partNumber : String := ""
  divisions : List String := []
  partId : Option String := none
  divisionNumber : String := ""
  divisionId : Option String := none
  sectionNumber : String := ""
  subsections : List String := []
  sectionId : String := ""
  subsectionNumber : String := ""
  paragraphs : List String := []
  subsectionId : Option String := none
  paragraphLetter : String := ""
deriving Repr, DecidableEq

/-- The registry: a Python dict from ID strings to nodes, embedded as an
association list in insertion order with overwrite-on-assign. -/
abbrev Reg := List (String × Node)

/-- `key in registry`. -/
def hasKey (r : Reg) (k : String) : Bool := r.any (fun p => p.1 == k)

/-- `registry.get(key)` / `registry[key]` read (first matching entry). -/
def rGet : Reg → String → Option Node
  | [], _ => none
  | p :: rest, k => if p.1 == k then some p.2 else rGet rest k

/-- `registry[key] = value`: overwrite in place if present, else append. -/
def rSet (r : Reg) (k : String) (v : Node) : Reg :=
  if hasKey r k then r.map (fun p => (p.1, if p.1 == k then v else p.2))
  else r ++ [(k, v)]

/-- Mutation of the node stored at `key` (Python object aliasing: the
parser mutates node objects that are also reachable from the registry, so
every such mutation is an update of the registry entry). -/
def rUpd (r : Reg) (k : String) (f : Node → Node) : Reg :=
  r.map (fun p => (p.1, if p.1 == k then f p.2 else p.2))

/-- `Act(...)` constructor call as used in both parsers. -/
def mkActNode (id title jurisdiction year : String) : Node :=
  { id := id, kind := NodeKind.act, title := title, content := "",
    jurisdiction := jurisdiction, year := year }

/-- `Part(...)` constructor call as used in both parsers. -/
def mkPart (id title actId partNumber : String) : Node :=
  { id := id, kind := NodeKind.part, title := title, content := "",
    actId := actId, partNumber := partNumber, parentId := some actId }

/-- `Division(...)` constructor call as used in both parsers. -/
def mkDivision (id title partId divisionNumber : String) : Node :=
  { id := id, kind := NodeKind.division, title := title, content := "",
    partId := some partId, divisionNumber := divisionNumber,
    parentId := some partId }

/-- `Section(...)` constructor call as used in both parsers. -/
def mkSection (id title actId sectionNumber : String)
    (partId divisionId : Option String) (parentId : String) : Node :=
  { id := id, kind := NodeKind.sect, title := title, content := "",
    actId := actId, sectionNumber := sectionNumber, partId := partId,
    divisionId := divisionId, parentId := some parentId }

/-- `Subsection(...)` constructor call as used in both extractors. -/
def mkSubsection (id content sectionId subsectionNumber : String) : Node :=
  { id := id, kind := NodeKind.subsect, title := "", content := content,
    sectionId := sectionId, subsectionNumber := subsectionNumber,
    parentId := some sectionId }

/-- `Paragraph(...)` constructor call as used in both extractors. -/
def mkParagraph (id content : String) (subsectionId : Option String)
    (paragraphLetter parentId : String) : Node :=
  { id := id, kind := NodeKind.para, title := "", content := content,
    subsectionId := subsectionId, paragraphLetter := paragraphLetter,
    parentId := some parentId }

/-! ## Line matchers for the two dialects

Each matcher reproduces one `re.match` of the source, including the
backtracking the regex engine performs when the greedy character-class run
has to give characters back to the separator that follows it. -/
/-- `[\d\-‑]` — federal Part-number characters (digit, hyphen or U+2011). -/
def isFedPartNumC (c : Char) : Bool := isDigitC c || c == '-' || c == nbHyphen

/-- `[—\-]` — the heading separator class (em dash or hyphen). -/
def isSepDash (c : Char) : Bool := c == emDash || c == '-'

/-- Greedy match of `(cls+)(sep)(.+)$` with backtracking: the group takes
the longest class-run prefix that still leaves a separator character and a
non-empty remainder.  `g` counts down over candidate group lengths. -/
def greedySplitAux (isSep : Char → Bool) (cs : List Char) : Nat → Option (List Char × List Char)
  | 0 => none
  | Nat.succ g =>
    match cs.drop (g + 1) with
    | s :: rest =>
      if isSep s && !rest.isEmpty then some (cs.take (g + 1), rest)
      else greedySplitAux isSep cs g
    | [] => greedySplitAux isSep cs g

/-- Greedy `(cls+)(sep)(.+)$` starting from the maximal class run. -/
def greedySplit (isCls isSep : Char → Bool) (cs : List Char) : Option (List Char × List Char) :=
  greedySplitAux isSep cs (cs.takeWhile isCls).length

/-- Federal `^Collapse(Part [\d\-‑]+)[—\-](.+)$`; returns the part number
(group 1 with its `"Part "` prefix already removed, as the source does
with `replace`) and the title. -/
def fedPartMatch (cs : List Char) : Option (List Char × List Char) :=
  if listStarts "CollapsePart ".data cs then
    greedySplit isFedPartNumC isSepDash (cs.drop 13)
  else none

/-- Federal `^Collapse(Division \d+)[—\-](.+)$`. -/
def fedDivMatch (cs : List Char) : Option (List Char × List Char) :=
  if listStarts "CollapseDivision ".data cs then
    greedySplit isDigitC isSepDash (cs.drop 17)
  else none

/-- Federal `^(\d+[A-Z]*)\s\s(.+)$` — section heading. -/
def fedSectionMatch (cs : List Char) : Option (List Char × List Char) :=
  let ds := cs.takeWhile isDigitC
  if ds.isEmpty then none else
  let r1 := cs.drop ds.length
  let us := r1.takeWhile isUpperC
  match r1.drop us.length with
  | a :: b :: rest =>
    if isSpaceC a && isSpaceC b && !rest.isEmpty then some (ds ++ us, rest) else none
  | _ => none

/-- Federal `^\((\d+[a-z]*)\)(.+)$` — subsection marker on a stripped line. -/
def fedSubsecMatch (cs : List Char) : Option (List Char × List Char) :=
  match cs with
  | '(' :: r0 =>
    let ds := r0.takeWhile isDigitC
    if ds.isEmpty then none else
    let r1 := r0.drop ds.length
    let ls := r1.takeWhile isLowerC
    match r1.drop ls.length with
    | ')' :: rest => if rest.isEmpty then none else some (ds ++ ls, rest)
    | _ => none
  | _ => none

/-- Federal `^\(([a-z]+)\)(.+)$` — paragraph marker on a stripped line. -/
def fedParaMatch (cs : List Char) : Option (List Char × List Char) :=
  match cs with
  | '(' :: r0 =>
    let ls := r0.takeWhile isLowerC
    if ls.isEmpty then none else
    match r0.drop ls.length with
    | ')' :: rest => if rest.isEmpty then none else some (ls, rest)
    | _ => none
  | _ => none

/-- Victorian `^Part ([\d\w]+)[—\-](.+)$` on a stripped line
(`[\d\w]` is just `\w`). -/
def vicPartMatch (cs : List Char) : Option (List Char × List Char) :=
  if listStarts "Part ".data cs then greedySplit isWordC isSepDash (cs.drop 5)
  else none

/-- Victorian `^Division ([\d\w]+)[—\-](.+)$` on a stripped line. -/
def vicDivMatch (cs : List Char) : Option (List Char × List Char) :=
  if listStarts "Division ".data cs then greedySplit isWordC isSepDash (cs.drop 9)
  else none

/-- Victorian `^\s+(\d+[A-Z]*)\s+(.+)$` on the raw line.  When the line
ends in the whitespace run, `\s+` gives one character back to `.+`. -/
def vicSectionMatch (cs : List Char) : Option (List Char × List Char) :=
  let ws := cs.takeWhile isSpaceC
  if ws.isEmpty then none else
  let r0 := cs.drop ws.length
  let ds := r0.takeWhile isDigitC
  if ds.isEmpty then none else
  let r1 := r0.drop ds.length
  let us := r1.takeWhile isUpperC
  let r2 := r1.drop us.length
  let sp := r2.takeWhile isSpaceC
  if sp.isEmpty then none else
  let r3 := r2.drop sp.length
  if !r3.isEmpty then some (ds ++ us, r3)
  else if 2 ≤ sp.length then some (ds ++ us, r2.drop (sp.length - 1))
  else none

/-- Victorian `^\s+\((\d+[a-z]*)\)(.*)$` on the raw line. -/
def vicSubsecMatch (cs : List Char) : Option (List Char × List Char) :=
  let ws := cs.takeWhile isSpaceC
  if ws.isEmpty then none else
  match cs.drop ws.length with
  | '(' :: r0 =>
    let ds := r0.takeWhile isDigitC
    if ds.isEmpty then none else
    let r1 := r0.drop ds.length
    let ls := r1.takeWhile isLowerC
    match r1.drop ls.length with
    | ')' :: rest => some (ds ++ ls, rest)
    | _ => none
  | _ => none

/-- Victorian `^\s+\(([a-z]+)\)(.*)$` on the raw line. -/
def vicParaMatch (cs : List Char) : Option (List Char × List Char) :=
  let ws := cs.takeWhile isSpaceC
  if ws.isEmpty then none else
  match cs.drop ws.length with
  | '(' :: r0 =>
    let ls := r0.takeWhile isLowerC
    if ls.isEmpty then none else
    match r0.drop ls.length with
    | ')' :: rest => some (ls, rest)
    | _ => none
  | _ => none

/-- Victorian amendment-note test: `^S\.\s+\d+` or `^Pt\.\s+\d+` as an
unanchored-start `re.match` (prefix only). -/
def isAmendNote (cs : List Char) : Bool :=
  (match cs with
   | 'S' :: '.' :: r =>
     let sp := r.takeWhile isSpaceC
     !sp.isEmpty &&
       (match r.drop sp.length with
        | d :: _ => isDigitC d
        | [] => false)
   | _ => false) ||
  (match cs with
   | 'P' :: 't' :: '.' :: r =>
     let sp := r.takeWhile isSpaceC
     !sp.isEmpty &&
       (match r.drop sp.length with
        | d :: _ => isDigitC d
        | [] => false)
   | _ => false)

/-- `_is_roman_numeral`: `^[ivx]+$` against the lowered text. -/
def isRomanNumeral (s : String) : Bool :=
  let cs := s.data.map lowerChar
  !cs.isEmpty && cs.all (fun c => c == 'i' || c == 'v' || c == 'x')

/-! ## Subsection/paragraph extractor (`_extract_subsections`) -/
structure ExState where
  registry : Reg
  currentSubsection : Option String
  currentParagraph : Option String
  contentLines : List String
deriving Repr

/-- The buffer flush both extractors perform at each marker and at end of
input: append the space-joined buffer to the open Paragraph if one is
open, else to the open Subsection if one is open; with neither open the
buffer is left as it is (the source clears it only inside the two
branches). -/
def exFlush (st : ExState) : ExState :=
  match st.contentLines with
  | [] => st
  | _ :: _ =>
    match st.currentParagraph with
    | some pid =>
      { st with
        registry := rUpd st.registry pid (fun n =>
          { n with content := n.content ++ " " ++ joinSep " " st.contentLines }),
        contentLines := [] }
    | none =>
      match st.currentSubsection with
      | some sid =>
        { st with
          registry := rUpd st.registry sid (fun n =>
            { n with content := n.content ++ " " ++ joinSep " " st.contentLines }),
          contentLines := [] }
      | none => st

/-- Registry writes shared by both extractors when a subsection opens. -/
def openSubsection (secId : String) (st1 : ExState) (num content : String) : ExState :=
  let nid := secId ++ "/" ++ num
  let node := mkSubsection nid content secId num
  let reg1 := rSet st1.registry nid node
  let reg2 := rUpd reg1 secId (fun n =>
    { n with subsections := n.subsections ++ [nid], childrenIds := n.childrenIds ++ [nid] })
  { registry := reg2, currentSubsection := some nid, currentParagraph := none,
    contentLines := st1.contentLines }

/-- Registry writes shared by both extractors when a paragraph opens:
parented to the open Subsection when there is one, else directly to the
Section (in which case only `children_ids` of the Section records it). -/
def openParagraph (secId : String) (st1 : ExState) (cur : Option String)
    (letters content : String) : ExState :=
  let pid := match cur with
    | some sub => sub ++ "/" ++ letters
    | none => secId ++ "/" ++ letters
  let parent := match cur with
    | some sub => sub
    | none => secId
  let node := mkParagraph pid content cur letters parent
  let reg1 := rSet st1.registry pid node
  let reg2 := match cur with
    | some sub => rUpd reg1 sub (fun n =>
        { n with paragraphs := n.paragraphs ++ [pid], childrenIds := n.childrenIds ++ [pid] })
    | none => rUpd reg1 secId (fun n =>
        { n with childrenIds := n.childrenIds ++ [pid] })
  { registry := reg2, currentSubsection := cur, currentParagraph := some pid,
    contentLines := st1.contentLines }

/-- One line of `FederalTextParser._extract_subsections`. -/
def fedExStep (secId : String) (st : ExState) (rawLine : String) : ExState :=
  let l := stripS rawLine
  if l.data.isEmpty then st
  else match fedSubsecMatch l.data with
  | some m => openSubsection secId (exFlush st) (String.mk m.1) (String.mk m.2)
  | none =>
    match fedParaMatch l.data with
    | some m =>
      openParagraph secId (exFlush st) st.currentSubsection (String.mk m.1) (String.mk m.2)
    | none => { st with contentLines := st.contentLines ++ [l] }

/-- One line of `VictorianTextParser._extract_subsections`: additionally
skips amendment notes, matches markers on the unstripped line, strips the
initial marker content, and refuses Roman-numeral paragraph letters. -/
def vicExStep (secId : String) (st : ExState) (rawLine : String) : ExState :=
  let stripped := stripS rawLine
  if stripped.data.isEmpty then st
  else if isAmendNote stripped.data then st
  else match vicSubsecMatch rawLine.data with
  | some m =>
    openSubsection secId (exFlush st) (String.mk m.1) (stripS (String.mk m.2))
  | none =>
    match vicParaMatch rawLine.data with
    | some m =>
      if isRomanNumeral (String.mk m.1) then
        { st with contentLines := st.contentLines ++ [stripped] }
      else
        openParagraph secId (exFlush st) st.currentSubsection (String.mk m.1)
          (stripS (String.mk m.2))
    | none => { st with contentLines := st.contentLines ++ [stripped] }

/-- `_extract_subsections` driver, shared shape: read the section content
out of the registry, walk its lines, final flush. -/
def runExtract (step : String → ExState → String → ExState) (secId : String) (reg : Reg) : Reg :=
  match rGet reg secId with
  | none => reg
  | some sec =>
    if sec.content = "" then reg
    else
      (exFlush ((linesOf sec.content).foldl (step secId) ⟨reg, none, none, []⟩)).registry

def runFedExtract : String → Reg → Reg := runExtract fedExStep

def runVicExtract : String → Reg → Reg := runExtract vicExStep

/-! ## Hierarchy parsers (`_parse_hierarchy` and `parse`) -/
structure HState where
  registry : Reg
  currentPart : Option String
  currentDivision : Option String
  currentSection : Option String
  collecting : Bool
  contentLines : List String
deriving Repr

/-- The section flush both hierarchy parsers perform before each new
heading and at end of input: set the open Section content to the
newline-joined buffer and run the extractor on it. -/
def hFlush (extract : String → Reg → Reg) (st : HState) : HState :=
  match st.currentSection, st.contentLines with
  | some sid, _ :: _ =>
    let reg1 := rUpd st.registry sid (fun n => { n with content := joinSep "\n" st.contentLines })
    { st with registry := extract sid reg1, contentLines := [] }
  | _, _ => st

/-- Registry writes shared by both parsers when a new Part node is made. -/
def openPart (actId : String) (st1 : HState) (pid numS title : String) : HState :=
  let node := mkPart pid ("Part " ++ numS ++ String.singleton emDash ++ title) actId numS
  let reg1 := rSet st1.registry pid node
  let reg2 := rUpd reg1 actId (fun n =>
    { n with parts := n.parts ++ [pid], childrenIds := n.childrenIds ++ [pid] })
  { st1 with registry := reg2, currentPart := some pid, currentDivision := none }

/-- Registry writes shared by both parsers at a Division heading with an
open Part; with no open Part the heading is dropped (after the flush). -/
def openDivision (st1 : HState) (numS title : String) : HState :=
  match st1.currentPart with
  | some ppid =>
    let did := ppid ++ "/div-" ++ numS
    let node := mkDivision did ("Division " ++ numS ++ String.singleton emDash ++ title) ppid numS
    let reg1 := rSet st1.registry did node
    let reg2 := rUpd reg1 ppid (fun n =>
      { n with divisions := n.divisions ++ [did], childrenIds := n.childrenIds ++ [did] })
    { st1 with registry := reg2, currentDivision := some did }
  | none => st1

/-- Registry writes shared by both parsers when a Section heading opens a
new Section under the innermost open parent. -/
def openSection (actId : String) (st1 : HState) (numS title : String) : HState :=
  let sid := actId ++ "/s" ++ numS
  let parent := match st1.currentDivision, st1.currentPart with
    | some d, _ => d
    | none, some p => p
    | none, none => actId
  let node := mkSection sid title actId numS st1.currentPart st1.currentDivision parent
  let reg1 := rSet st1.registry sid node
  let reg2 := rUpd reg1 parent (fun n =>
    { n with sections := n.sections ++ [sid], childrenIds := n.childrenIds ++ [sid] })
  { st1 with registry := reg2, currentSection := some sid, collecting := true }

/-- One line of `FederalTextParser._parse_hierarchy`. -/
def fedHStep (actId : String) (st : HState) (rawLine : String) : HState :=
  let l := rstripS rawLine
  match l.data with
  | [] => st
  | c :: _ =>
    if c == '-' then st
    else match fedPartMatch l.data with
    | some m =>
      let st1 := hFlush runFedExtract st
      let numS := String.mk m.1
      openPart actId st1 (actId ++ "/part-" ++ numS) numS (String.mk m.2)
    | none =>
      match fedDivMatch l.data with
      | some m =>
        openDivision (hFlush runFedExtract st) (String.mk m.1) (String.mk m.2)
      | none =>
        match fedSectionMatch l.data with
        | some m =>
          openSection actId (hFlush runFedExtract st) (String.mk m.1) (String.mk m.2)
        | none =>
          if st.collecting && st.currentSection.isSome then
            { st with contentLines := st.contentLines ++ [l] }
          else st

/-- One line of `VictorianTextParser._parse_hierarchy`: Part headings are
deduplicated against the registry, Section headings are matched on the
raw line (they need leading whitespace), and content lines are buffered
unstripped. -/
def vicHStep (actId : String) (st : HState) (rawLine : String) : HState :=
  let stripped := stripS rawLine
  if stripped.data.isEmpty then st
  else match vicPartMatch stripped.data with
  | some m =>
    let st1 := hFlush runVicExtract st
    let numS := String.mk m.1
    let pid := actId ++ "/part-" ++ numS
    if hasKey st1.registry pid then
      { st1 with currentPart := some pid, currentDivision := none }
    else openPart actId st1 pid numS (String.mk m.2)
  | none =>
    match vicDivMatch stripped.data with
    | some m =>
      openDivision (hFlush runVicExtract st) (String.mk m.1) (String.mk m.2)
    | none =>
      match vicSectionMatch rawLine.data with
      | some m =>
        openSection actId (hFlush runVicExtract st) (String.mk m.1) (stripS (String.mk m.2))
      | none =>
        if st.collecting && st.currentSection.isSome then
          { st with contentLines := st.contentLines ++ [rawLine] }
        else st

/-! ## Preprocessing and the `parse` entry points -/
/-- Federal `re.sub(r"(Collapse)", r"\n\1", text)`. -/
def insertNLCollapse : Nat → List Char → List Char
  | 0, cs => cs
  | _, [] => []
  | Nat.succ fuel, c :: rest =>
    if listStarts "Collapse".data (c :: rest) then
      '\n' :: "Collapse".data ++ insertNLCollapse fuel ((c :: rest).drop 8)
    else c :: insertNLCollapse fuel rest

/-- Federal `re.sub(r"(\d+[A-Z]*)\s\s", r"\n\1  ", text)`: the greedy
digits-then-capitals run followed by two whitespace characters is pulled
onto a fresh line with two plain spaces, scanning resuming after it. -/
def splitNumMarkers : Nat → List Char → List Char
  | 0, cs => cs
  | _, [] => []
  | Nat.succ fuel, c :: rest =>
    let cs := c :: rest
    let ds := cs.takeWhile isDigitC
    if ds.isEmpty then c :: splitNumMarkers fuel rest
    else
      let r1 := cs.drop ds.length
      let us := r1.takeWhile isUpperC
      match r1.drop us.length with
      | a :: b :: r3 =>
        if isSpaceC a && isSpaceC b then
          '\n' :: (ds ++ us) ++ ' ' :: ' ' :: splitNumMarkers fuel r3
        else c :: splitNumMarkers fuel rest
      | _ => c :: splitNumMarkers fuel rest

/-- Federal preprocessing, the two substitutions in source order. -/
def fedPreprocess (text : String) : String :=
  let t1 := insertNLCollapse text.data.length text.data
  ⟨splitNumMarkers t1.length t1⟩

/-- Victorian `^\[Page \d+\]$` page-marker test on the stripped line. -/
def isPageMarker (cs : List Char) : Bool :=
  if listStarts "[Page ".data cs then
    let r := cs.drop 6
    let ds := r.takeWhile isDigitC
    !ds.isEmpty && r.drop ds.length == [']']
  else false

/-- The fixed Victorian footer line fragment. -/
def vicFooter : List Char := "Authorised by the Chief Parliamentary Counsel".data

/-- Victorian `_preprocess_pdf_artifacts`: drop page markers and footer
lines, keep everything else. -/
def vicPreprocess (text : String) : String :=
  joinSep "\n" ((linesOf text).filter (fun l =>
    !isPageMarker (stripBoth l.data) && !containsSub vicFooter l.data))

/-- Parse metadata: a Python dict of the four (string-valued) fields. -/
abbrev Metadata := List (String × String)

def mGet (md : Metadata) (k : String) : Option String :=
  (md.find? (fun p => p.1 == k)).map (·.2)

/-- The `required` list of both `parse` methods. -/
def requiredMeta : List String := ["canonical_id", "jurisdiction", "year", "title"]

/-- `[k for k in required if k not in metadata]`. -/
def missingMeta (md : Metadata) : List String :=
  requiredMeta.filter (fun k => (mGet md k).isNone)

/-- An ASCII apostrophe, for rendering Python list reprs. -/
def squote : String := String.singleton (Char.ofNat 39)

/-- Python `str(list_of_strings)`, as f-string interpolation renders it. -/
def pyListRepr (xs : List String) : String :=
  "[" ++ joinSep ", " (xs.map (fun s => squote ++ s ++ squote)) ++ "]"

/-- `f"Missing required metadata: {missing}"`. -/
def missingMetaMsg (missing : List String) : String :=
  "Missing required metadata: " ++ pyListRepr missing

/-- The Act node both `parse` methods construct from the metadata. -/
def actFromMeta (md : Metadata) : Node :=
  mkActNode ((mGet md "canonical_id").getD "") ((mGet md "title").getD "")
    ((mGet md "jurisdiction").getD "") ((mGet md "year").getD "")

/-- Shared `parse` shape: metadata validation, preprocessing, Act
creation, the line state machine, final flush; returns the (possibly
mutated) Act read back from the registry plus the registry. -/
def parseWith (pre : String → String) (step : String → HState → String → HState)
    (extract : String → Reg → Reg) (content : String) (md : Metadata) :
    Except String (Node × Reg) :=
  let missing := missingMeta md
  if !missing.isEmpty then Except.error (missingMetaMsg missing)
  else
    let act := actFromMeta md
    let reg0 := rSet [] act.id act
    let lines := linesOf (pre content)
    let stF := hFlush extract (lines.foldl (step act.id) ⟨reg0, none, none, none, false, []⟩)
    Except.ok ((rGet stF.registry act.id).getD act, stF.registry)

/-- `FederalTextParser.parse` (content already decoded to text). -/
def fedParse : String → Metadata → Except String (Node × Reg) :=
  parseWith fedPreprocess fedHStep runFedExtract

/-- `VictorianTextParser.parse` (content already decoded to text). -/
def vicParse : String → Metadata → Except String (Node × Reg) :=
  parseWith vicPreprocess vicHStep runVicExtract

/-! ## Referential closure of a registry -/
/-- Every ID a node mentions in its child-list fields. -/
def nodeRefIds (n : Node) : List String :=
  n.childrenIds ++ n.parts ++ n.sections ++ n.divisions ++ n.subsections ++ n.paragraphs

/-- One node is closed with respect to a registry: all its child-list IDs
are keys, and (for non-Act nodes) its parent ID is a key. -/
def nodeClosed (r : Reg) (n : Node) : Bool :=
  (nodeRefIds n).all (fun c => hasKey r c) &&
    (match n.kind with
     | NodeKind.act => true
     | _ =>
       match n.parentId with
       | some p => hasKey r p
       | none => false)

/-- Referential closure of a whole registry. -/
def regClosed (r : Reg) : Bool := r.all (fun p => nodeClosed r p.2)

/-! ## Extractor invariants -/
/-- The extractor invariant: a closed registry, the section key present,
and every open-cursor ID present as a key. -/
def ExInv (secId : String) (st : ExState) : Prop :=
  regClosed st.registry = true ∧ hasKey st.registry secId = true ∧
  (∀ i, st.currentSubsection = some i → hasKey st.registry i = true) ∧
  (∀ i, st.currentParagraph = some i → hasKey st.registry i = true)

/-! ## Hierarchy invariants -/
/-- The hierarchy invariant: a closed registry, the Act key present, and
every open-cursor ID present as a key. -/
def HInv (actId : String) (st : HState) : Prop :=
  regClosed st.registry = true ∧ hasKey st.registry actId = true ∧
  (∀ i, st.currentPart = some i → hasKey st.registry i = true) ∧
  (∀ i, st.currentDivision = some i → hasKey st.registry i = true) ∧
  (∀ i, st.currentSection = some i → hasKey st.registry i = true)

/-- The optional trailing section segment of a canonical ID. -/
def secChars : Option (List Char) → List Char
  | some t => '/' :: t
  | none => []

/-- The paragraph ID `openParagraph` derives: under the open subsection
when one is open, else directly under the section. -/
def paraTargetId (secId : String) (cur : Option String) (letters : String) : String :=
  match cur with
  | some sub => sub ++ "/" ++ letters
  | none => secId ++ "/" ++ letters

/-- The parent `openParagraph` picks. -/
def paraParent (secId : String) (cur : Option String) : String :=
  match cur with
  | some sub => sub
  | none => secId

/-- Success/registry extraction from a parse result (used to state the
concrete scenarios without writing out registry literals). -/
def parseActOf (e : Except String (Node × Reg)) : Node :=
  match e with
  | Except.ok p => p.1
  | Except.error _ => mkActNode "" "" "" ""

def parseRegOf (e : Except String (Node × Reg)) : Reg :=
  match e with
  | Except.ok p => p.2
  | Except.error _ => []

/-! ## Concrete inputs used by the claim scenarios -/
/-- Success test for a parse result. -/
def parseOk (e : Except String (Node × Reg)) : Bool :=
  match e with
  | Except.ok _ => true
  | Except.error _ => false

def emS : String := String.singleton emDash

def nbS : String := String.singleton nbHyphen

def sampleFedMeta : Metadata :=
  [("canonical_id", "/au-federal/fwa/2009"), ("jurisdiction", "au-federal"),
   ("year", "2009"), ("title", "Fair Work Act 2009")]

def sampleVicMeta : Metadata :=
  [("canonical_id", "/au-victoria/ohs/2004"), ("jurisdiction", "au-victoria"),
   ("year", "2004"), ("title", "Occupational Health and Safety Act 2004")]

/-- A section node with preface text before its first subsection marker,
for running the extractor in isolation. -/
def c3Section : Node :=
  { mkSection "/a/s1" "T" "/a" "1" none none "/a" with
      content := "preface\n(1) first\nmore\n(2) second" }

def c3Reg : Reg := rSet [] "/a/s1" c3Section

/-- The spec scenario C line: no "Collapse" prefix, no space after "Part",
U+2011 non-breaking hyphen, em dash before the title. -/
def c4NoCollapseLine : String := "Part1" ++ nbS ++ "1" ++ emS ++ "Introduction"

/-- The same heading in the form the federal pattern actually expects. -/
def c4CollapseLine : String := "CollapsePart 1" ++ nbS ++ "1" ++ emS ++ "Introduction"

/-- The Part ID the federal parser actually derives: U+2011 preserved. -/
def c4PartIdNB : String := "/au-federal/fwa/2009/part-1" ++ nbS ++ "1"

def c5FedText : String :=
  "CollapsePart 1-1" ++ emS ++ "Intro\nCollapseDivision 1" ++ emS ++
  "Prelim\n1  Short title\n(1)  In this Act:\n(a)  first; or"

def c5VicText : String :=
  "Part 2" ++ emS ++ "The Authority\nDivision 1" ++ emS ++
  "General\n 7 Functions\n (1) The Authority has power.\n (a) to act; and"

/-- The state a parse starts its line fold from. -/
def hStart (md : Metadata) : HState :=
  ⟨rSet [] (actFromMeta md).id (actFromMeta md), none, none, none, false, []⟩

def c8Text : String :=
  "Part 2" ++ emS ++ "The Authority\nPart 2" ++ emS ++ "The Authority"

def romanMarkers : List String := ["i", "ii", "iii", "iv", "v", "vi", "vii", "viii", "ix", "x"]

def createMarkers : List String := ["a", "b", "c", "aa", "ba", "z"]

def mdMissingYear : Metadata :=
  [("canonical_id", "/au-victoria/ohs/2004"), ("jurisdiction", "au-victoria"),
   ("title", "Occupational Health and Safety Act 2004")]

/-- The single cross reference found in "see s 21". -/
def c1Ref : CrossReference :=
  ⟨"/au-victoria/ohs/2004", some "/au-victoria/ohs/2004/s21", "s 21", some "21", conf09⟩

/-! ## Theorems -/

theorem conf09_eq : conf09 = (9 : Rat) / 10 := by
  unfold conf09; rw [Rat.mk'_eq_divInt, Rat.divInt_eq_div]; norm_num

theorem conf08_eq : conf08 = (8 : Rat) / 10 := by
  unfold conf08; rw [Rat.mk'_eq_divInt, Rat.divInt_eq_div]; norm_num

theorem conf05_eq : conf05 = (5 : Rat) / 10 := by
  unfold conf05; rw [Rat.mk'_eq_divInt, Rat.divInt_eq_div]; norm_num

/-! ## Registry lemmas -/
theorem hasKey_rSet_self (r : Reg) (k : String) (v : Node) :
    hasKey (rSet r k v) k = true := by
  unfold rSet
  split
  · next h =>
    unfold hasKey at *
    simp only [List.any_map, List.any_eq_true] at *
    obtain ⟨p, hp, he⟩ := h
    exact ⟨p, hp, he⟩
  · unfold hasKey
    simp [List.any_append]

theorem hasKey_rSet_of {r : Reg} {k2 : String} (k : String) (v : Node)
    (h : hasKey r k2 = true) : hasKey (rSet r k v) k2 = true := by
  unfold rSet
  split
  · unfold hasKey at *
    simp only [List.any_map, List.any_eq_true] at *
    obtain ⟨p, hp, he⟩ := h
    exact ⟨p, hp, he⟩
  · unfold hasKey at *
    simp [List.any_append, h]

theorem hasKey_rUpd (r : Reg) (k : String) (f : Node → Node) (k2 : String) :
    hasKey (rUpd r k f) k2 = hasKey r k2 := by
  unfold rUpd hasKey
  rw [List.any_map]
  congr 1

theorem mem_rSet {r : Reg} {k : String} {v : Node} {p : String × Node}
    (h : p ∈ rSet r k v) : p = (k, v) ∨ p ∈ r := by
  unfold rSet at h
  split at h
  · next hk =>
    simp only [List.mem_map] at h
    obtain ⟨q, hq, he⟩ := h
    by_cases hqk : (q.1 == k) = true
    · left
      simp only [hqk, if_pos] at he
      rw [← he]
      have : q.1 = k := by simpa using hqk
      simp [this]
    · right
      simp only [hqk] at he
      simp only [Bool.false_eq_true, if_false] at he
      rw [← he]
      exact hq
  · rcases List.mem_append.mp h with h1 | h2
    · exact Or.inr h1
    · simp only [List.mem_singleton] at h2
      exact Or.inl h2

theorem mem_rUpd {r : Reg} {k : String} {f : Node → Node} {p : String × Node}
    (h : p ∈ rUpd r k f) :
    ∃ q ∈ r, p = (q.1, if q.1 == k then f q.2 else q.2) := by
  unfold rUpd at h
  simp only [List.mem_map] at h
  obtain ⟨q, hq, he⟩ := h
  exact ⟨q, hq, he.symm⟩

theorem rGet_hasKey {r : Reg} {k : String} {n : Node} (h : rGet r k = some n) :
    hasKey r k = true := by
  induction r with
  | nil => simp [rGet] at h
  | cons q rest ih =>
    unfold rGet at h
    unfold hasKey
    by_cases hq : (q.1 == k) = true
    · simp [List.any_cons, hq]
    · simp only [hq, Bool.false_eq_true, if_false] at h
      simp only [List.any_cons, hq, Bool.false_or]
      exact ih h

theorem rGet_rSet_self (r : Reg) (k : String) (v : Node) :
    rGet (rSet r k v) k = some v := by
  unfold rSet
  split
  · next hk =>
    unfold hasKey at hk
    induction r with
    | nil => simp at hk
    | cons q rest ih =>
      by_cases hq : (q.1 == k) = true
      · simp [rGet, hq]
      · simp only [List.any_cons, hq, Bool.false_or] at hk
        simp only [List.map_cons, rGet, hq, Bool.false_eq_true, if_false]
        exact ih hk
  · next hk =>
    induction r with
    | nil => simp [rGet]
    | cons q rest ih =>
      by_cases hq : (q.1 == k) = true
      · exfalso
        apply hk
        unfold hasKey
        simp [List.any_cons, hq]
      · have hk2 : ¬ hasKey rest k = true := by
          intro hc
          apply hk
          unfold hasKey at *
          simp [List.any_cons, hc]
        simp only [List.cons_append, rGet, hq, Bool.false_eq_true, if_false]
        exact ih hk2

theorem rGet_rUpd_ne (r : Reg) (k : String) (f : Node → Node) {k2 : String}
    (h : k2 ≠ k) : rGet (rUpd r k f) k2 = rGet r k2 := by
  induction r with
  | nil => rfl
  | cons q rest ih =>
    show rGet ((q.1, if q.1 == k then f q.2 else q.2) :: rUpd rest k f) k2 =
      rGet (q :: rest) k2
    by_cases hq : (q.1 == k2) = true
    · have hq2 : q.1 = k2 := by simpa using hq
      have hqk : (q.1 == k) = false := by
        rw [hq2]
        simpa using h
      simp [rGet, hq, hqk]
    · simp only [rGet, hq, Bool.false_eq_true, if_false]
      exact ih

/-! ## Closure preservation lemmas -/
theorem nodeClosed_mono {r r2 : Reg} {n : Node}
    (hm : ∀ c, hasKey r c = true → hasKey r2 c = true)
    (h : nodeClosed r n = true) : nodeClosed r2 n = true := by
  unfold nodeClosed at *
  simp only [Bool.and_eq_true, List.all_eq_true] at *
  obtain ⟨h1, h2⟩ := h
  refine ⟨fun c hc => hm c (h1 c hc), ?_⟩
  cases hk : n.kind <;> simp_all
  all_goals
    cases hp : n.parentId with
    | none => rw [hp] at h2; simp_all
    | some p => rw [hp] at h2; simp only []; exact hm p h2

theorem nodeClosed_addRefs {r : Reg} {n n2 : Node}
    (h : nodeClosed r n = true)
    (hsub : ∀ x ∈ nodeRefIds n2, x ∈ nodeRefIds n ∨ hasKey r x = true)
    (hk : n2.kind = n.kind) (hp : n2.parentId = n.parentId) :
    nodeClosed r n2 = true := by
  unfold nodeClosed at *
  simp only [Bool.and_eq_true, List.all_eq_true] at *
  obtain ⟨h1, h2⟩ := h
  refine ⟨fun c hc => ?_, ?_⟩
  · rcases hsub c hc with hin | hkey
    · exact h1 c hin
    · exact hkey
  · rw [hk, hp]
    exact h2

theorem regClosed_rSet {r : Reg} {k : String} {v : Node}
    (h : regClosed r = true) (hv : nodeClosed (rSet r k v) v = true) :
    regClosed (rSet r k v) = true := by
  unfold regClosed at *
  simp only [List.all_eq_true] at *
  intro p hp
  rcases mem_rSet hp with he | hin
  · rw [he]
    exact hv
  · exact nodeClosed_mono (fun c hc => hasKey_rSet_of k v hc) (h p hin)

theorem regClosed_rUpd {r : Reg} {k : String} {f : Node → Node}
    (h : regClosed r = true)
    (hf : ∀ n, nodeClosed r n = true → nodeClosed r (f n) = true) :
    regClosed (rUpd r k f) = true := by
  unfold regClosed at *
  simp only [List.all_eq_true] at *
  intro p hp
  obtain ⟨q, hq, he⟩ := mem_rUpd hp
  have hmono : ∀ c, hasKey r c = true → hasKey (rUpd r k f) c = true := by
    intro c hc
    rw [hasKey_rUpd]
    exact hc
  apply nodeClosed_mono hmono
  rw [he]
  by_cases hqk : (q.1 == k) = true
  · simp only [hqk, if_pos]
    exact hf q.2 (h q hq)
  · simp only [hqk]
    simp only [Bool.false_eq_true, if_false]
    exact h q hq

/-- A content-only node update leaves closure of each node untouched. -/
theorem nodeClosed_content {r : Reg} {n : Node} {c : String}
    (h : nodeClosed r n = true) :
    nodeClosed r { n with content := c } = true :=
  nodeClosed_addRefs h (fun _ hx => Or.inl hx) rfl rfl

/-- Closure of a freshly constructed Subsection node: it has no child
references and its parent is the section. -/
theorem nodeClosed_subsect (r : Reg) (id content sec num : String)
    (h : hasKey r sec = true) :
    nodeClosed r (mkSubsection id content sec num) = true := by
  unfold nodeClosed
  rw [show nodeRefIds (mkSubsection id content sec num) = [] from rfl]
  simp only [List.all_nil, Bool.true_and]
  exact h

/-- Closure of a freshly constructed Paragraph node. -/
theorem nodeClosed_para (r : Reg) (id content : String) (sub : Option String)
    (letters parent : String) (h : hasKey r parent = true) :
    nodeClosed r (mkParagraph id content sub letters parent) = true := by
  unfold nodeClosed
  rw [show nodeRefIds (mkParagraph id content sub letters parent) = [] from rfl]
  simp only [List.all_nil, Bool.true_and]
  exact h

/-- Closure of a freshly constructed Part node. -/
theorem nodeClosed_part (r : Reg) (id title actId num : String)
    (h : hasKey r actId = true) :
    nodeClosed r (mkPart id title actId num) = true := by
  unfold nodeClosed
  rw [show nodeRefIds (mkPart id title actId num) = [] from rfl]
  simp only [List.all_nil, Bool.true_and]
  exact h

/-- Closure of a freshly constructed Division node. -/
theorem nodeClosed_division (r : Reg) (id title partId num : String)
    (h : hasKey r partId = true) :
    nodeClosed r (mkDivision id title partId num) = true := by
  unfold nodeClosed
  rw [show nodeRefIds (mkDivision id title partId num) = [] from rfl]
  simp only [List.all_nil, Bool.true_and]
  exact h

/-- Closure of a freshly constructed Section node. -/
theorem nodeClosed_sect (r : Reg) (id title actId num : String)
    (partId divisionId : Option String) (parent : String)
    (h : hasKey r parent = true) :
    nodeClosed r (mkSection id title actId num partId divisionId parent) = true := by
  unfold nodeClosed
  rw [show nodeRefIds (mkSection id title actId num partId divisionId parent) = [] from rfl]
  simp only [List.all_nil, Bool.true_and]
  exact h

theorem exFlush_hasKey (st : ExState) (k : String) :
    hasKey (exFlush st).registry k = hasKey st.registry k := by
  unfold exFlush
  split
  · rfl
  · split
    · dsimp only
      exact hasKey_rUpd _ _ _ _
    · split
      · dsimp only
        exact hasKey_rUpd _ _ _ _
      · rfl

theorem exFlush_sub (st : ExState) :
    (exFlush st).currentSubsection = st.currentSubsection := by
  unfold exFlush
  split
  · rfl
  · split
    · rfl
    · split
      · rfl
      · rfl

theorem exFlush_para (st : ExState) :
    (exFlush st).currentParagraph = st.currentParagraph := by
  unfold exFlush
  split
  · rfl
  · split
    · rfl
    · split
      · rfl
      · rfl

theorem exFlush_closed {st : ExState} (h : regClosed st.registry = true) :
    regClosed (exFlush st).registry = true := by
  unfold exFlush
  split
  · exact h
  · split
    · dsimp only
      exact regClosed_rUpd h (fun n hn => nodeClosed_content hn)
    · split
      · dsimp only
        exact regClosed_rUpd h (fun n hn => nodeClosed_content hn)
      · exact h

theorem exFlush_inv {secId : String} {st : ExState} (h : ExInv secId st) :
    ExInv secId (exFlush st) := by
  obtain ⟨hc, hs, hsub, hpar⟩ := h
  refine ⟨exFlush_closed hc, ?_, ?_, ?_⟩
  · rw [exFlush_hasKey]
    exact hs
  · intro i hi
    rw [exFlush_hasKey]
    rw [exFlush_sub] at hi
    exact hsub i hi
  · intro i hi
    rw [exFlush_hasKey]
    rw [exFlush_para] at hi
    exact hpar i hi

/-- Appending one freshly inserted ID to child lists preserves node
closure. -/
theorem refs_extend {r : Reg} {x y : String} (hx : hasKey r x = true)
    {n : Node} (hy : y ∈ nodeRefIds n ∨ y = x) :
    y ∈ nodeRefIds n ∨ hasKey r y = true := by
  rcases hy with h1 | h2
  · exact Or.inl h1
  · right
    rw [h2]
    exact hx

theorem openSubsection_inv {secId : String} {st1 : ExState} {num content : String}
    (h : ExInv secId st1) : ExInv secId (openSubsection secId st1 num content) := by
  obtain ⟨hc, hs, _, _⟩ := h
  unfold openSubsection
  refine ⟨?_, ?_, ?_, ?_⟩ <;> dsimp only
  · apply regClosed_rUpd
    · apply regClosed_rSet hc
      exact nodeClosed_subsect _ _ _ _ _ (hasKey_rSet_of _ _ hs)
    · intro n hn
      refine nodeClosed_addRefs hn (fun y hy => ?_) rfl rfl
      refine refs_extend (hasKey_rSet_self _ _ _) ?_
      simp only [nodeRefIds, List.mem_append, List.mem_singleton] at hy ⊢
      tauto
  · rw [hasKey_rUpd]
    exact hasKey_rSet_of _ _ hs
  · intro i hi
    simp only [Option.some_inj] at hi
    subst hi
    rw [hasKey_rUpd]
    exact hasKey_rSet_self _ _ _
  · intro i hi
    simp at hi

theorem openParagraph_inv {secId : String} {st1 : ExState} {cur : Option String}
    {letters content : String} (h : ExInv secId st1)
    (hcur : ∀ i, cur = some i → hasKey st1.registry i = true) :
    ExInv secId (openParagraph secId st1 cur letters content) := by
  obtain ⟨hc, hs, _, _⟩ := h
  cases cur with
  | some sub =>
    have hsubk : hasKey st1.registry sub = true := hcur sub rfl
    unfold openParagraph
    refine ⟨?_, ?_, ?_, ?_⟩ <;> dsimp only
    · apply regClosed_rUpd
      · apply regClosed_rSet hc
        exact nodeClosed_para _ _ _ _ _ _ (hasKey_rSet_of _ _ hsubk)
      · intro n hn
        refine nodeClosed_addRefs hn (fun y hy => ?_) rfl rfl
        refine refs_extend (hasKey_rSet_self _ _ _) ?_
        simp only [nodeRefIds, List.mem_append, List.mem_singleton] at hy ⊢
        tauto
    · rw [hasKey_rUpd]
      exact hasKey_rSet_of _ _ hs
    · intro i hi
      simp only [Option.some_inj] at hi
      subst hi
      rw [hasKey_rUpd]
      exact hasKey_rSet_of _ _ hsubk
    · intro i hi
      simp only [Option.some_inj] at hi
      subst hi
      rw [hasKey_rUpd]
      exact hasKey_rSet_self _ _ _
  | none =>
    unfold openParagraph
    refine ⟨?_, ?_, ?_, ?_⟩ <;> dsimp only
    · apply regClosed_rUpd
      · apply regClosed_rSet hc
        exact nodeClosed_para _ _ _ _ _ _ (hasKey_rSet_of _ _ hs)
      · intro n hn
        refine nodeClosed_addRefs hn (fun y hy => ?_) rfl rfl
        refine refs_extend (hasKey_rSet_self _ _ _) ?_
        simp only [nodeRefIds, List.mem_append, List.mem_singleton] at hy ⊢
        tauto
    · rw [hasKey_rUpd]
      exact hasKey_rSet_of _ _ hs
    · intro i hi
      simp at hi
    · intro i hi
      simp only [Option.some_inj] at hi
      subst hi
      rw [hasKey_rUpd]
      exact hasKey_rSet_self _ _ _

/-! ## Step lemmas for the extractors -/
theorem openSubsection_hasKey {secId : String} {st1 : ExState} {num content k : String}
    (h : hasKey st1.registry k = true) :
    hasKey (openSubsection secId st1 num content).registry k = true := by
  unfold openSubsection
  dsimp only
  rw [hasKey_rUpd]
  exact hasKey_rSet_of _ _ h

theorem openParagraph_hasKey {secId : String} {st1 : ExState} {cur : Option String}
    {letters content k : String} (h : hasKey st1.registry k = true) :
    hasKey (openParagraph secId st1 cur letters content).registry k = true := by
  cases cur with
  | some sub =>
    unfold openParagraph
    dsimp only
    rw [hasKey_rUpd]
    exact hasKey_rSet_of _ _ h
  | none =>
    unfold openParagraph
    dsimp only
    rw [hasKey_rUpd]
    exact hasKey_rSet_of _ _ h

theorem fedExStep_inv {secId : String} {st : ExState} {line : String}
    (h : ExInv secId st) : ExInv secId (fedExStep secId st line) := by
  by_cases he : (stripS line).data.isEmpty = true
  · simp only [fedExStep, he, if_true]
    exact h
  · cases hm : fedSubsecMatch (stripS line).data with
    | some m =>
      simp [fedExStep, he, hm]
      exact openSubsection_inv (exFlush_inv h)
    | none =>
      cases hp : fedParaMatch (stripS line).data with
      | some m =>
        simp [fedExStep, he, hm, hp]
        refine openParagraph_inv (exFlush_inv h) ?_
        intro i hi
        rw [exFlush_hasKey]
        exact h.2.2.1 i hi
      | none =>
        simp [fedExStep, he, hm, hp]
        exact ⟨h.1, h.2.1, h.2.2.1, h.2.2.2⟩

theorem vicExStep_inv {secId : String} {st : ExState} {line : String}
    (h : ExInv secId st) : ExInv secId (vicExStep secId st line) := by
  by_cases he : (stripS line).data.isEmpty = true
  · simp only [vicExStep, he, if_true]
    exact h
  · by_cases ha : isAmendNote (stripS line).data = true
    · simp [vicExStep, he, ha]
      exact h
    · cases hm : vicSubsecMatch line.data with
      | some m =>
        simp [vicExStep, he, ha, hm]
        exact openSubsection_inv (exFlush_inv h)
      | none =>
        cases hp : vicParaMatch line.data with
        | some m =>
          by_cases hr : isRomanNumeral (String.mk m.1) = true
          · simp [vicExStep, he, ha, hm, hp, hr]
            exact ⟨h.1, h.2.1, h.2.2.1, h.2.2.2⟩
          · simp [vicExStep, he, ha, hm, hp, hr]
            refine openParagraph_inv (exFlush_inv h) ?_
            intro i hi
            rw [exFlush_hasKey]
            exact h.2.2.1 i hi
        | none =>
          simp [vicExStep, he, ha, hm, hp]
          exact ⟨h.1, h.2.1, h.2.2.1, h.2.2.2⟩

theorem fedExStep_hasKey {secId : String} {st : ExState} {line k : String}
    (h : hasKey st.registry k = true) :
    hasKey (fedExStep secId st line).registry k = true := by
  by_cases he : (stripS line).data.isEmpty = true
  · simp only [fedExStep, he, if_true]
    exact h
  · cases hm : fedSubsecMatch (stripS line).data with
    | some m =>
      simp [fedExStep, he, hm]
      apply openSubsection_hasKey
      rw [exFlush_hasKey]
      exact h
    | none =>
      cases hp : fedParaMatch (stripS line).data with
      | some m =>
        simp [fedExStep, he, hm, hp]
        apply openParagraph_hasKey
        rw [exFlush_hasKey]
        exact h
      | none =>
        simp [fedExStep, he, hm, hp]
        exact h

theorem vicExStep_hasKey {secId : String} {st : ExState} {line k : String}
    (h : hasKey st.registry k = true) :
    hasKey (vicExStep secId st line).registry k = true := by
  by_cases he : (stripS line).data.isEmpty = true
  · simp only [vicExStep, he, if_true]
    exact h
  · by_cases ha : isAmendNote (stripS line).data = true
    · simp [vicExStep, he, ha]
      exact h
    · cases hm : vicSubsecMatch line.data with
      | some m =>
        simp [vicExStep, he, ha, hm]
        apply openSubsection_hasKey
        rw [exFlush_hasKey]
        exact h
      | none =>
        cases hp : vicParaMatch line.data with
        | some m =>
          by_cases hr : isRomanNumeral (String.mk m.1) = true
          · simp [vicExStep, he, ha, hm, hp, hr]
            exact h
          · simp [vicExStep, he, ha, hm, hp, hr]
            apply openParagraph_hasKey
            rw [exFlush_hasKey]
            exact h
        | none =>
          simp [vicExStep, he, ha, hm, hp]
          exact h

theorem foldl_fedEx_inv {secId : String} (lines : List String) {st : ExState}
    (h : ExInv secId st) : ExInv secId (lines.foldl (fedExStep secId) st) := by
  induction lines generalizing st with
  | nil => exact h
  | cons l rest ih => exact ih (fedExStep_inv h)

theorem foldl_vicEx_inv {secId : String} (lines : List String) {st : ExState}
    (h : ExInv secId st) : ExInv secId (lines.foldl (vicExStep secId) st) := by
  induction lines generalizing st with
  | nil => exact h
  | cons l rest ih => exact ih (vicExStep_inv h)

theorem foldl_fedEx_hasKey {secId : String} (lines : List String) {st : ExState} {k : String}
    (h : hasKey st.registry k = true) :
    hasKey ((lines.foldl (fedExStep secId) st)).registry k = true := by
  induction lines generalizing st with
  | nil => exact h
  | cons l rest ih => exact ih (fedExStep_hasKey h)

theorem foldl_vicEx_hasKey {secId : String} (lines : List String) {st : ExState} {k : String}
    (h : hasKey st.registry k = true) :
    hasKey ((lines.foldl (vicExStep secId) st)).registry k = true := by
  induction lines generalizing st with
  | nil => exact h
  | cons l rest ih => exact ih (vicExStep_hasKey h)

theorem runFedExtract_closed (secId : String) {r : Reg} (h : regClosed r = true) :
    regClosed (runFedExtract secId r) = true := by
  unfold runFedExtract runExtract
  split
  · exact h
  · next sec hget =>
    split
    · exact h
    · have h0 : ExInv secId ⟨r, none, none, []⟩ :=
        ⟨h, rGet_hasKey hget, fun i hi => by simp at hi, fun i hi => by simp at hi⟩
      exact (exFlush_inv (foldl_fedEx_inv _ h0)).1

theorem runVicExtract_closed (secId : String) {r : Reg} (h : regClosed r = true) :
    regClosed (runVicExtract secId r) = true := by
  unfold runVicExtract runExtract
  split
  · exact h
  · next sec hget =>
    split
    · exact h
    · have h0 : ExInv secId ⟨r, none, none, []⟩ :=
        ⟨h, rGet_hasKey hget, fun i hi => by simp at hi, fun i hi => by simp at hi⟩
      exact (exFlush_inv (foldl_vicEx_inv _ h0)).1

theorem runFedExtract_hasKey (secId : String) {r : Reg} {k : String}
    (h : hasKey r k = true) : hasKey (runFedExtract secId r) k = true := by
  unfold runFedExtract runExtract
  split
  · exact h
  · split
    · exact h
    · rw [exFlush_hasKey]
      exact foldl_fedEx_hasKey _ h

theorem runVicExtract_hasKey (secId : String) {r : Reg} {k : String}
    (h : hasKey r k = true) : hasKey (runVicExtract secId r) k = true := by
  unfold runVicExtract runExtract
  split
  · exact h
  · split
    · exact h
    · rw [exFlush_hasKey]
      exact foldl_vicEx_hasKey _ h

theorem hFlush_closed {extract : String → Reg → Reg} {st : HState}
    (hext : ∀ sid r, regClosed r = true → regClosed (extract sid r) = true)
    (h : regClosed st.registry = true) :
    regClosed (hFlush extract st).registry = true := by
  unfold hFlush
  split
  · dsimp only
    apply hext
    exact regClosed_rUpd h (fun n hn => nodeClosed_content hn)
  · exact h

theorem hFlush_hasKey {extract : String → Reg → Reg} {st : HState} {k : String}
    (hext : ∀ sid r k2, hasKey r k2 = true → hasKey (extract sid r) k2 = true)
    (h : hasKey st.registry k = true) :
    hasKey (hFlush extract st).registry k = true := by
  unfold hFlush
  split
  · dsimp only
    apply hext
    rw [hasKey_rUpd]
    exact h
  · exact h

theorem hFlush_cursors (extract : String → Reg → Reg) (st : HState) :
    (hFlush extract st).currentPart = st.currentPart ∧
    (hFlush extract st).currentDivision = st.currentDivision ∧
    (hFlush extract st).currentSection = st.currentSection := by
  unfold hFlush
  split
  · exact ⟨rfl, rfl, rfl⟩
  · exact ⟨rfl, rfl, rfl⟩

theorem hFlush_hinv {extract : String → Reg → Reg} {actId : String} {st : HState}
    (hclosed : ∀ sid r, regClosed r = true → regClosed (extract sid r) = true)
    (hkey : ∀ sid r k2, hasKey r k2 = true → hasKey (extract sid r) k2 = true)
    (h : HInv actId st) : HInv actId (hFlush extract st) := by
  obtain ⟨hc, ha, hp, hd, hs⟩ := h
  obtain ⟨e1, e2, e3⟩ := hFlush_cursors extract st
  refine ⟨hFlush_closed hclosed hc, hFlush_hasKey hkey ha, ?_, ?_, ?_⟩
  · intro i hi
    rw [e1] at hi
    exact hFlush_hasKey hkey (hp i hi)
  · intro i hi
    rw [e2] at hi
    exact hFlush_hasKey hkey (hd i hi)
  · intro i hi
    rw [e3] at hi
    exact hFlush_hasKey hkey (hs i hi)

theorem openPart_inv {actId : String} {st1 : HState} {numS title : String}
    (h : HInv actId st1) :
    HInv actId (openPart actId st1 (actId ++ "/part-" ++ numS) numS title) := by
  obtain ⟨hc, ha, _, _, hs⟩ := h
  unfold openPart
  refine ⟨?_, ?_, ?_, ?_, ?_⟩ <;> dsimp only
  · apply regClosed_rUpd
    · apply regClosed_rSet hc
      exact nodeClosed_part _ _ _ _ _ (hasKey_rSet_of _ _ ha)
    · intro n hn
      refine nodeClosed_addRefs hn (fun y hy => ?_) rfl rfl
      refine refs_extend (hasKey_rSet_self _ _ _) ?_
      simp only [nodeRefIds, List.mem_append, List.mem_singleton] at hy ⊢
      tauto
  · rw [hasKey_rUpd]
    exact hasKey_rSet_of _ _ ha
  · intro i hi
    simp only [Option.some_inj] at hi
    subst hi
    rw [hasKey_rUpd]
    exact hasKey_rSet_self _ _ _
  · intro i hi
    simp at hi
  · intro i hi
    rw [hasKey_rUpd]
    exact hasKey_rSet_of _ _ (hs i hi)

theorem openPart_hasKey {actId : String} {st1 : HState} {pid numS title k : String}
    (h : hasKey st1.registry k = true) :
    hasKey (openPart actId st1 pid numS title).registry k = true := by
  unfold openPart
  dsimp only
  rw [hasKey_rUpd]
  exact hasKey_rSet_of _ _ h

theorem openDivision_inv {actId : String} {st1 : HState} {numS title : String}
    (h : HInv actId st1) : HInv actId (openDivision st1 numS title) := by
  obtain ⟨hc, ha, hp, hd, hs⟩ := h
  cases hcp : st1.currentPart with
  | none =>
    have heq : openDivision st1 numS title = st1 := by
      simp [openDivision, hcp]
    rw [heq]
    exact ⟨hc, ha, hp, hd, hs⟩
  | some ppid =>
    have hppid : hasKey st1.registry ppid = true := hp ppid hcp
    simp only [openDivision, hcp]
    refine ⟨?_, ?_, ?_, ?_, ?_⟩ <;> dsimp only
    · apply regClosed_rUpd
      · apply regClosed_rSet hc
        exact nodeClosed_division _ _ _ _ _ (hasKey_rSet_of _ _ hppid)
      · intro n hn
        refine nodeClosed_addRefs hn (fun y hy => ?_) rfl rfl
        refine refs_extend (hasKey_rSet_self _ _ _) ?_
        simp only [nodeRefIds, List.mem_append, List.mem_singleton] at hy ⊢
        tauto
    · rw [hasKey_rUpd]
      exact hasKey_rSet_of _ _ ha
    · intro i hi
      simp only [Option.some_inj] at hi
      subst hi
      rw [hasKey_rUpd]
      exact hasKey_rSet_of _ _ hppid
    · intro i hi
      simp only [Option.some_inj] at hi
      subst hi
      rw [hasKey_rUpd]
      exact hasKey_rSet_self _ _ _
    · intro i hi
      rw [hasKey_rUpd]
      exact hasKey_rSet_of _ _ (hs i hi)

theorem openDivision_hasKey {st1 : HState} {numS title k : String}
    (h : hasKey st1.registry k = true) :
    hasKey (openDivision st1 numS title).registry k = true := by
  cases hcp : st1.currentPart with
  | none =>
    have heq : openDivision st1 numS title = st1 := by
      simp [openDivision, hcp]
    rw [heq]
    exact h
  | some ppid =>
    simp only [openDivision, hcp]
    rw [hasKey_rUpd]
    exact hasKey_rSet_of _ _ h

theorem openSection_inv {actId : String} {st1 : HState} {numS title : String}
    (h : HInv actId st1) : HInv actId (openSection actId st1 numS title) := by
  obtain ⟨hc, ha, hp, hd, _⟩ := h
  unfold openSection
  have hparent : hasKey st1.registry (match st1.currentDivision, st1.currentPart with
      | some d, _ => d
      | none, some p => p
      | none, none => actId) = true := by
    cases hcd : st1.currentDivision with
    | some d => exact hd d hcd
    | none =>
      cases hcp : st1.currentPart with
      | some p => exact hp p hcp
      | none => exact ha
  refine ⟨?_, ?_, ?_, ?_, ?_⟩ <;> dsimp only
  · apply regClosed_rUpd
    · apply regClosed_rSet hc
      exact nodeClosed_sect _ _ _ _ _ _ _ _ (hasKey_rSet_of _ _ hparent)
    · intro n hn
      refine nodeClosed_addRefs hn (fun y hy => ?_) rfl rfl
      refine refs_extend (hasKey_rSet_self _ _ _) ?_
      simp only [nodeRefIds, List.mem_append, List.mem_singleton] at hy ⊢
      tauto
  · rw [hasKey_rUpd]
    exact hasKey_rSet_of _ _ ha
  · intro i hi
    rw [hasKey_rUpd]
    exact hasKey_rSet_of _ _ (hp i hi)
  · intro i hi
    rw [hasKey_rUpd]
    exact hasKey_rSet_of _ _ (hd i hi)
  · intro i hi
    simp only [Option.some_inj] at hi
    subst hi
    rw [hasKey_rUpd]
    exact hasKey_rSet_self _ _ _

theorem openSection_hasKey {actId : String} {st1 : HState} {numS title k : String}
    (h : hasKey st1.registry k = true) :
    hasKey (openSection actId st1 numS title).registry k = true := by
  unfold openSection
  dsimp only
  rw [hasKey_rUpd]
  exact hasKey_rSet_of _ _ h

theorem fedHStep_inv {actId : String} {st : HState} {line : String}
    (h : HInv actId st) : HInv actId (fedHStep actId st line) := by
  have hfc : ∀ sid r, regClosed r = true → regClosed (runFedExtract sid r) = true :=
    fun sid r hr => runFedExtract_closed sid hr
  have hfk : ∀ sid r k2, hasKey r k2 = true → hasKey (runFedExtract sid r) k2 = true :=
    fun sid r k2 hr => runFedExtract_hasKey sid hr
  cases hl : (rstripS line).data with
  | nil =>
    simp only [fedHStep, hl]
    exact h
  | cons c rest =>
    by_cases hc1 : (c == '-') = true
    · simp [fedHStep, hl, hc1]
      exact h
    · cases hpm : fedPartMatch (c :: rest) with
      | some m =>
        simp [fedHStep, hl, hc1, hpm]
        exact openPart_inv (hFlush_hinv hfc hfk h)
      | none =>
        cases hdm : fedDivMatch (c :: rest) with
        | some m =>
          simp [fedHStep, hl, hc1, hpm, hdm]
          exact openDivision_inv (hFlush_hinv hfc hfk h)
        | none =>
          cases hsm : fedSectionMatch (c :: rest) with
          | some m =>
            simp [fedHStep, hl, hc1, hpm, hdm, hsm]
            exact openSection_inv (hFlush_hinv hfc hfk h)
          | none =>
            by_cases hcol : (st.collecting && st.currentSection.isSome) = true
            · simp [fedHStep, hl, hc1, hpm, hdm, hsm, hcol]
              exact ⟨h.1, h.2.1, h.2.2.1, h.2.2.2.1, h.2.2.2.2⟩
            · simp [fedHStep, hl, hc1, hpm, hdm, hsm, hcol]
              exact h

theorem vicHStep_inv {actId : String} {st : HState} {line : String}
    (h : HInv actId st) : HInv actId (vicHStep actId st line) := by
  have hfc : ∀ sid r, regClosed r = true → regClosed (runVicExtract sid r) = true :=
    fun sid r hr => runVicExtract_closed sid hr
  have hfk : ∀ sid r k2, hasKey r k2 = true → hasKey (runVicExtract sid r) k2 = true :=
    fun sid r k2 hr => runVicExtract_hasKey sid hr
  by_cases he : (stripS line).data.isEmpty = true
  · simp only [vicHStep, he, if_true]
    exact h
  · cases hpm : vicPartMatch (stripS line).data with
    | some m =>
      by_cases hdup : hasKey (hFlush runVicExtract st).registry
          (actId ++ "/part-" ++ String.mk m.1) = true
      · simp [vicHStep, he, hpm, hdup]
        have h1 := hFlush_hinv hfc hfk h
        exact ⟨h1.1, h1.2.1,
          fun i hi => by
            simp only [Option.some_inj] at hi
            subst hi
            exact hdup,
          fun i hi => by simp at hi,
          h1.2.2.2.2⟩
      · simp [vicHStep, he, hpm, hdup]
        exact openPart_inv (hFlush_hinv hfc hfk h)
    | none =>
      cases hdm : vicDivMatch (stripS line).data with
      | some m =>
        simp [vicHStep, he, hpm, hdm]
        exact openDivision_inv (hFlush_hinv hfc hfk h)
      | none =>
        cases hsm : vicSectionMatch line.data with
        | some m =>
          simp [vicHStep, he, hpm, hdm, hsm]
          exact openSection_inv (hFlush_hinv hfc hfk h)
        | none =>
          by_cases hcol : (st.collecting && st.currentSection.isSome) = true
          · simp [vicHStep, he, hpm, hdm, hsm, hcol]
            exact ⟨h.1, h.2.1, h.2.2.1, h.2.2.2.1, h.2.2.2.2⟩
          · simp [vicHStep, he, hpm, hdm, hsm, hcol]
            exact h

theorem fedHStep_hasKey {actId : String} {st : HState} {line k : String}
    (h : hasKey st.registry k = true) :
    hasKey (fedHStep actId st line).registry k = true := by
  have hfk : ∀ sid r k2, hasKey r k2 = true → hasKey (runFedExtract sid r) k2 = true :=
    fun sid r k2 hr => runFedExtract_hasKey sid hr
  cases hl : (rstripS line).data with
  | nil =>
    simp only [fedHStep, hl]
    exact h
  | cons c rest =>
    by_cases hc1 : (c == '-') = true
    · simp [fedHStep, hl, hc1]
      exact h
    · cases hpm : fedPartMatch (c :: rest) with
      | some m =>
        simp [fedHStep, hl, hc1, hpm]
        exact openPart_hasKey (hFlush_hasKey hfk h)
      | none =>
        cases hdm : fedDivMatch (c :: rest) with
        | some m =>
          simp [fedHStep, hl, hc1, hpm, hdm]
          exact openDivision_hasKey (hFlush_hasKey hfk h)
        | none =>
          cases hsm : fedSectionMatch (c :: rest) with
          | some m =>
            simp [fedHStep, hl, hc1, hpm, hdm, hsm]
            exact openSection_hasKey (hFlush_hasKey hfk h)
          | none =>
            by_cases hcol : (st.collecting && st.currentSection.isSome) = true
            · simp [fedHStep, hl, hc1, hpm, hdm, hsm, hcol]
              exact h
            · simp [fedHStep, hl, hc1, hpm, hdm, hsm, hcol]
              exact h

theorem vicHStep_hasKey {actId : String} {st : HState} {line k : String}
    (h : hasKey st.registry k = true) :
    hasKey (vicHStep actId st line).registry k = true := by
  have hfk : ∀ sid r k2, hasKey r k2 = true → hasKey (runVicExtract sid r) k2 = true :=
    fun sid r k2 hr => runVicExtract_hasKey sid hr
  by_cases he : (stripS line).data.isEmpty = true
  · simp only [vicHStep, he, if_true]
    exact h
  · cases hpm : vicPartMatch (stripS line).data with
    | some m =>
      by_cases hdup : hasKey (hFlush runVicExtract st).registry
          (actId ++ "/part-" ++ String.mk m.1) = true
      · simp [vicHStep, he, hpm, hdup]
        exact hFlush_hasKey hfk h
      · simp [vicHStep, he, hpm, hdup]
        exact openPart_hasKey (hFlush_hasKey hfk h)
    | none =>
      cases hdm : vicDivMatch (stripS line).data with
      | some m =>
        simp [vicHStep, he, hpm, hdm]
        exact openDivision_hasKey (hFlush_hasKey hfk h)
      | none =>
        cases hsm : vicSectionMatch line.data with
        | some m =>
          simp [vicHStep, he, hpm, hdm, hsm]
          exact openSection_hasKey (hFlush_hasKey hfk h)
        | none =>
          by_cases hcol : (st.collecting && st.currentSection.isSome) = true
          · simp [vicHStep, he, hpm, hdm, hsm, hcol]
            exact h
          · simp [vicHStep, he, hpm, hdm, hsm, hcol]
            exact h

theorem foldl_fedH_inv {actId : String} (lines : List String) {st : HState}
    (h : HInv actId st) : HInv actId (lines.foldl (fedHStep actId) st) := by
  induction lines generalizing st with
  | nil => exact h
  | cons l rest ih => exact ih (fedHStep_inv h)

theorem foldl_vicH_inv {actId : String} (lines : List String) {st : HState}
    (h : HInv actId st) : HInv actId (lines.foldl (vicHStep actId) st) := by
  induction lines generalizing st with
  | nil => exact h
  | cons l rest ih => exact ih (vicHStep_inv h)

theorem foldl_fedH_hasKey {actId : String} (lines : List String) {st : HState} {k : String}
    (h : hasKey st.registry k = true) :
    hasKey (lines.foldl (fedHStep actId) st).registry k = true := by
  induction lines generalizing st with
  | nil => exact h
  | cons l rest ih => exact ih (fedHStep_hasKey h)

theorem foldl_vicH_hasKey {actId : String} (lines : List String) {st : HState} {k : String}
    (h : hasKey st.registry k = true) :
    hasKey (lines.foldl (vicHStep actId) st).registry k = true := by
  induction lines generalizing st with
  | nil => exact h
  | cons l rest ih => exact ih (vicHStep_hasKey h)

/-- Closure of the fresh Act node. -/
theorem nodeClosed_act (r : Reg) (i t j y : String) :
    nodeClosed r (mkActNode i t j y) = true := rfl

/-- The one-entry registry a parse starts from is closed. -/
theorem regClosed_init (k i t j y : String) :
    regClosed (rSet [] k (mkActNode i t j y)) = true := by
  apply regClosed_rSet
  · rfl
  · exact nodeClosed_act _ _ _ _ _

/-- The initial hierarchy state of a parse satisfies the invariant. -/
theorem init_hinv (md : Metadata) :
    HInv (actFromMeta md).id
      ⟨rSet [] (actFromMeta md).id (actFromMeta md), none, none, none, false, []⟩ := by
  refine ⟨?_, ?_, ?_, ?_, ?_⟩ <;> dsimp only
  · exact regClosed_init _ _ _ _ _
  · exact hasKey_rSet_self _ _ _
  all_goals intro i hi; simp at hi

theorem foldl_h_inv {actId : String} {step : String → HState → String → HState}
    (hstep : ∀ st line, HInv actId st → HInv actId (step actId st line))
    (lines : List String) :
    ∀ {st : HState}, HInv actId st → HInv actId (lines.foldl (step actId) st) := by
  induction lines with
  | nil => intro st h; exact h
  | cons l rest ih => intro st h; exact ih (hstep st l h)

/-- Any registry a successful `parseWith` returns is closed, given the
per-line invariance of the dialect pieces. -/
theorem parseWith_closed {pre : String → String} {step : String → HState → String → HState}
    {extract : String → Reg → Reg} {content : String} {md : Metadata} {a : Node} {r : Reg}
    (hstep : ∀ actId st line, HInv actId st → HInv actId (step actId st line))
    (hfc : ∀ sid r2, regClosed r2 = true → regClosed (extract sid r2) = true)
    (hfk : ∀ sid r2 k2, hasKey r2 k2 = true → hasKey (extract sid r2) k2 = true)
    (h : parseWith pre step extract content md = Except.ok (a, r)) :
    regClosed r = true := by
  unfold parseWith at h
  by_cases hm : (missingMeta md).isEmpty = true
  · simp only [hm, Bool.not_true, Bool.false_eq_true, if_false] at h
    have hinv1 : HInv (actFromMeta md).id
        ((linesOf (pre content)).foldl (step (actFromMeta md).id)
          ⟨rSet [] (actFromMeta md).id (actFromMeta md), none, none, none, false, []⟩) :=
      foldl_h_inv (fun st line hst => hstep _ st line hst) _ (init_hinv md)
    have hinv2 := hFlush_hinv hfc hfk hinv1
    have hr : r = (hFlush extract ((linesOf (pre content)).foldl (step (actFromMeta md).id)
        ⟨rSet [] (actFromMeta md).id (actFromMeta md), none, none, none, false, []⟩)).registry := by
      simp only [Except.ok.injEq, Prod.mk.injEq] at h
      exact h.2.symm
    rw [hr]
    exact hinv2.1
  · simp only [hm] at h
    simp at h

/-! ## Canonical-ID round-trip lemmas -/
theorem strData_append (a b : String) : (a ++ b).data = a.data ++ b.data := rfl

theorem lowerChar_fix_out {c : Char} (h : c.toNat < 65 ∨ 90 < c.toNat) :
    lowerChar c = c := by
  unfold lowerChar
  rw [if_neg]
  simp only [Bool.and_eq_true, decide_eq_true_eq, not_and]
  intro h1
  omega

theorem lowerChar_fix_isLowerC {c : Char} (h : isLowerC c = true) : lowerChar c = c := by
  apply lowerChar_fix_out
  unfold isLowerC at h
  simp only [Bool.and_eq_true, decide_eq_true_eq] at h
  omega

theorem lowerChar_fix_isJurC {c : Char} (h : isJurC c = true) : lowerChar c = c := by
  unfold isJurC at h
  simp only [Bool.or_eq_true] at h
  rcases h with h1 | h2
  · exact lowerChar_fix_isLowerC h1
  · apply lowerChar_fix_out
    simp only [decide_eq_true_eq] at h2
    omega

theorem map_lowerChar_fix {l : List Char} (h : ∀ c ∈ l, lowerChar c = c) :
    l.map lowerChar = l := by
  induction l with
  | nil => rfl
  | cons c rest ih =>
    simp only [List.map_cons, h c (List.mem_cons_self c rest)]
    rw [ih (fun d hd => h d (List.mem_cons_of_mem c hd))]

theorem dollarEnd_elim {l : List Char} (h : dollarEnd l = true) :
    l = [] ∨ l = [chr10] := by
  cases l with
  | nil => exact Or.inl rfl
  | cons a tail =>
    cases tail with
    | nil =>
      simp only [dollarEnd, beq_iff_eq] at h
      exact Or.inr (by rw [h])
    | cons b rest => exact absurd h (by simp [dollarEnd])

theorem chompNLList_concat (xs : List Char) : chompNLList (xs ++ [chr10]) = xs := by
  simp [chompNLList, List.reverse_append]

theorem chompNLList_of_no_newline {xs : List Char} (h : ∀ a ∈ xs, a ≠ chr10) :
    chompNLList xs = xs := by
  unfold chompNLList
  cases he : xs.reverse with
  | nil => rfl
  | cons c rest =>
    have hc : c ∈ xs := by
      rw [← List.mem_reverse, he]
      exact List.mem_cons_self c rest
    simp [beq_iff_eq, h c hc]

theorem ne_chr10_of_isLowerC {a : Char} (h : isLowerC a = true) : a ≠ chr10 := by
  intro he
  subst he
  exact absurd h (by decide)

theorem ne_chr10_of_isDigitC {a : Char} (h : isDigitC a = true) : a ≠ chr10 := by
  intro he
  subst he
  exact absurd h (by decide)

theorem ne_chr10_of_isJurC {a : Char} (h : isJurC a = true) : a ≠ chr10 := by
  intro he
  subst he
  exact absurd h (by decide)

theorem ne_chr10_of_isSecC {a : Char} (h : isSecC a = true) : a ≠ chr10 := by
  intro he
  subst he
  exact absurd h (by decide)

/-- Inversion of a successful canonical-ID pattern match: the input is the
concatenation of the matched segments followed by an optional single
trailing newline (the `$` anchor), the first three segments consist of
their character classes, and the year and section segments are nonempty. -/
theorem cidMatch_recon {cs j c y : List Char} {sec : Option (List Char)}
    (h : cidMatch cs = some (j, c, y, sec)) :
    (∃ tl, (tl = [] ∨ tl = [chr10]) ∧
      cs = '/' :: (j ++ '/' :: (c ++ '/' :: (y ++ secChars sec ++ tl)))) ∧
    (∀ a ∈ j, isJurC a = true) ∧ (∀ a ∈ c, isLowerC a = true) ∧
    (∀ a ∈ y, isDigitC a = true) ∧ y ≠ [] ∧
    (∀ t, sec = some t → t ≠ [] ∧ ∀ a ∈ t, isSecC a = true) := by
  unfold cidMatch at h
  split at h
  case h_2 => exact absurd h (by simp)
  case h_1 r0 =>
    try dsimp only at h
    split at h
    case isTrue => exact absurd h (by simp)
    case isFalse hj =>
      split at h
      case h_2 => exact absurd h (by simp)
      case h_1 r2 heq1 =>
        try dsimp only at h
        split at h
        case isTrue => exact absurd h (by simp)
        case isFalse hc =>
          split at h
          case h_2 => exact absurd h (by simp)
          case h_1 r4 heq2 =>
            try dsimp only at h
            split at h
            case isFalse => exact absurd h (by simp)
            case isTrue hy =>
              split at h
              case isTrue hdol =>
                simp only [Option.some_inj, Prod.mk.injEq] at h
                obtain ⟨hj2, hc2, hy2, hsec⟩ := h
                subst hj2 hc2 hy2
                have e0 := List.takeWhile_append_dropWhile (p := isJurC) (l := r0)
                have e2 := List.takeWhile_append_dropWhile (p := isLowerC) (l := r2)
                have e4 := List.takeWhile_append_dropWhile (p := isDigitC) (l := r4)
                rw [heq1] at e0
                rw [heq2] at e2
                refine ⟨⟨List.dropWhile isDigitC r4, dollarEnd_elim hdol, ?_⟩,
                  ?_, ?_, ?_, ?_, ?_⟩
                · rw [← hsec]
                  simp only [secChars, List.append_nil]
                  rw [e4, e2, e0]
                · intro a ha
                  exact List.mem_takeWhile_imp ha
                · intro a ha
                  exact List.mem_takeWhile_imp ha
                · intro a ha
                  exact List.mem_takeWhile_imp ha
                · intro he
                  rw [he] at hy
                  simp at hy
                · intro t ht
                  rw [← hsec] at ht
                  simp at ht
              case isFalse hdol =>
                split at h
                case h_2 => exact absurd h (by simp)
                case h_1 r6 heq3 =>
                  try dsimp only at h
                  split at h
                  case isFalse => exact absurd h (by simp)
                  case isTrue hr6 =>
                    simp only [Option.some_inj, Prod.mk.injEq] at h
                    obtain ⟨hj2, hc2, hy2, hsec⟩ := h
                    subst hj2 hc2 hy2
                    simp only [Bool.and_eq_true, Bool.not_eq_eq_eq_not,
                      Bool.not_true] at hr6
                    obtain ⟨htne, hdol7⟩ := hr6
                    have e0 := List.takeWhile_append_dropWhile (p := isJurC) (l := r0)
                    have e2 := List.takeWhile_append_dropWhile (p := isLowerC) (l := r2)
                    have e4 := List.takeWhile_append_dropWhile (p := isDigitC) (l := r4)
                    have e6 := List.takeWhile_append_dropWhile (p := isSecC) (l := r6)
                    rw [heq1] at e0
                    rw [heq2] at e2
                    rw [heq3] at e4
                    refine ⟨⟨List.dropWhile isSecC r6, dollarEnd_elim hdol7, ?_⟩,
                      ?_, ?_, ?_, ?_, ?_⟩
                    · rw [← hsec]
                      simp only [secChars, List.append_assoc, List.cons_append]
                      rw [e6, e4, e2, e0]
                    · intro a ha
                      exact List.mem_takeWhile_imp ha
                    · intro a ha
                      exact List.mem_takeWhile_imp ha
                    · intro a ha
                      exact List.mem_takeWhile_imp ha
                    · intro he
                      rw [he] at hy
                      simp at hy
                    · intro t ht
                      rw [← hsec] at ht
                      simp only [Option.some_inj] at ht
                      subst ht
                      constructor
                      · intro hnil
                        rw [hnil] at htne
                        simp at htne
                      · intro a ha
                        exact List.mem_takeWhile_imp ha

/-- A successful `parse_canonical_id` rebuilds, through
`build_canonical_id`, exactly the lowercased input string with its
optional single trailing newline removed. -/
theorem parse_build_lower {s : String} {cid : CanonicalID}
    (h : parseCanonicalId s = some cid) :
    buildCanonicalId cid.jurisdiction cid.codeType cid.year cid.sectionPart =
      Except.ok (chompNL (pyLower s)) := by
  unfold parseCanonicalId at h
  split at h
  case h_1 => exact absurd h (by simp)
  case h_2 j c y sec hmatch =>
    try dsimp only at h
    split at h
    case isFalse => exact absurd h (by simp)
    case isTrue hjur =>
      split at h
      case isFalse => exact absurd h (by simp)
      case isTrue hcode =>
        simp only [Option.some_inj] at h
        subst h
        obtain ⟨⟨tl, htl, hrecon⟩, hjchars, hcchars, hychars, hyne, hsecf⟩ :=
          cidMatch_recon hmatch
        have hsecnl : ∀ a ∈ secChars sec, a ≠ chr10 := by
          intro a ha
          cases hs : sec with
          | none =>
            rw [hs] at ha
            simp [secChars] at ha
          | some t =>
            rw [hs] at ha
            simp only [secChars, List.mem_cons] at ha
            rcases ha with rfl | ha
            · decide
            · exact ne_chr10_of_isSecC ((hsecf t hs).2 a ha)
        have hnonl : ∀ a ∈ ('/' :: (j ++ '/' :: (c ++ '/' :: (y ++ secChars sec)))),
            a ≠ chr10 := by
          intro a ha
          simp only [List.mem_cons, List.mem_append] at ha
          rcases ha with rfl | ha | rfl | ha | rfl | ha | ha
          · decide
          · exact ne_chr10_of_isJurC (hjchars a ha)
          · decide
          · exact ne_chr10_of_isLowerC (hcchars a ha)
          · decide
          · exact ne_chr10_of_isDigitC (hychars a ha)
          · exact hsecnl a ha
        have hdata : chompNLList (s.data.map lowerChar) =
            '/' :: (j ++ '/' :: (c ++ '/' :: (y ++ secChars sec))) := by
          rcases htl with rfl | rfl
          · rw [hrecon]
            simp only [List.append_nil]
            exact chompNLList_of_no_newline hnonl
          · have hsplit : s.data.map lowerChar =
                ('/' :: (j ++ '/' :: (c ++ '/' :: (y ++ secChars sec)))) ++ [chr10] := by
              rw [hrecon]
              simp [List.append_assoc]
            rw [hsplit, chompNLList_concat]
        have hjfix : pyLower (String.mk j) = String.mk j := by
          apply String.ext
          show j.map lowerChar = j
          exact map_lowerChar_fix (fun d hd => lowerChar_fix_isJurC (hjchars d hd))
        have hcfix : pyLower (String.mk c) = String.mk c := by
          apply String.ext
          show c.map lowerChar = c
          exact map_lowerChar_fix (fun d hd => lowerChar_fix_isLowerC (hcchars d hd))
        unfold buildCanonicalId
        dsimp only
        rw [hjfix, hcfix]
        simp only [hjur, hcode, Bool.not_true, Bool.false_eq_true, if_false]
        cases sec with
        | none =>
          simp only [Option.map_none, secChars, List.append_nil] at hdata ⊢
          refine congrArg Except.ok (String.ext ?_)
          show (("/" ++ String.mk j ++ "/" ++ String.mk c ++ "/" ++ String.mk y)).data =
            chompNLList (s.data.map lowerChar)
          rw [hdata]
          simp [strData_append]
        | some t =>
          have htne : t ≠ [] := (hsecf t rfl).1
          have hmkne : ¬(String.mk t = "") := by
            intro he
            apply htne
            have := congrArg String.data he
            simpa using this
          simp only [Option.map_some', secChars] at hdata ⊢
          rw [if_neg hmkne]
          refine congrArg Except.ok (String.ext ?_)
          show (("/" ++ String.mk j ++ "/" ++ String.mk c ++ "/" ++ String.mk y ++ "/" ++
            String.mk t)).data = chompNLList (s.data.map lowerChar)
          rw [hdata]
          simp [strData_append]

/-! ## Support lemmas for the claims -/
/-- Every cross reference produced by the section pass carries confidence
0.9 and resolves to `{source_id}/s{N}` for its captured section `N`. -/
theorem sectionPassRefs_mem {content src : String} {ref : CrossReference}
    (h : ref ∈ sectionPassRefs content src) :
    ref.confidence = conf09 ∧
    ∃ n, ref.sectionRef = some n ∧ ref.targetCanonicalId = some (src ++ "/s" ++ n) := by
  unfold sectionPassRefs at h
  simp only [List.mem_map] at h
  obtain ⟨m, _, he⟩ := h
  subst he
  exact ⟨rfl, String.mk m.2, rfl, rfl⟩

theorem self_ne_append {s x : String} (hx : x.data ≠ []) : s ≠ s ++ x := by
  intro he
  have hlen := congrArg (fun z => z.data.length) he
  simp only [strData_append, List.length_append] at hlen
  have : x.data.length = 0 := by omega
  exact hx (List.length_eq_zero.mp this)

theorem append_ne_self {s x : String} (hx : x.data ≠ []) : s ++ x ≠ s :=
  fun he => self_ne_append hx he.symm

theorem openParagraph_currentPara (secId : String) (st1 : ExState)
    (cur : Option String) (letters content : String) :
    (openParagraph secId st1 cur letters content).currentParagraph =
      some (paraTargetId secId cur letters) := by
  cases cur with
  | some sub => rfl
  | none => rfl

/-- Reading back the paragraph node `openParagraph` has just stored. -/
theorem openParagraph_rGet (secId : String) (st1 : ExState)
    (cur : Option String) (letters content : String) :
    rGet (openParagraph secId st1 cur letters content).registry
        (paraTargetId secId cur letters) =
      some (mkParagraph (paraTargetId secId cur letters) content cur letters
        (paraParent secId cur)) := by
  have hslash : ("/" ++ letters).data ≠ [] := by
    simp only [strData_append]
    intro he
    have := congrArg List.length he
    simp at this
  cases cur with
  | some sub =>
    unfold openParagraph
    dsimp only
    rw [show (paraTargetId secId (some sub) letters) = sub ++ "/" ++ letters from rfl]
    rw [rGet_rUpd_ne]
    · exact rGet_rSet_self _ _ _
    · rw [String.append_assoc]
      exact append_ne_self hslash
  | none =>
    unfold openParagraph
    dsimp only
    rw [show (paraTargetId secId none letters) = secId ++ "/" ++ letters from rfl]
    rw [rGet_rUpd_ne]
    · exact rGet_rSet_self _ _ _
    · rw [String.append_assoc]
      exact append_ne_self hslash

theorem vicPartMatch_ne_nil {cs : List Char} {m : List Char × List Char}
    (h : vicPartMatch cs = some m) : cs ≠ [] := by
  intro he
  subst he
  simp [vicPartMatch, listStarts] at h

/-- The deduplication branch of the Victorian Part handler: when the
derived Part ID is already a registry key, the step only flushes, then
reuses the existing ID as the current Part. -/
theorem vicHStep_dedup {actId : String} {st : HState} {line : String}
    {num title : List Char}
    (hm : vicPartMatch (stripS line).data = some (num, title))
    (hk : hasKey st.registry (actId ++ "/part-" ++ String.mk num) = true) :
    vicHStep actId st line =
      { hFlush runVicExtract st with
          currentPart := some (actId ++ "/part-" ++ String.mk num),
          currentDivision := none } := by
  have he : (stripS line).data.isEmpty = false := by
    cases h2 : (stripS line).data with
    | nil => rw [h2] at hm; exact absurd hm (by simp [vicPartMatch, listStarts])
    | cons a b => simp
  have hdup : hasKey (hFlush runVicExtract st).registry
      (actId ++ "/part-" ++ String.mk num) = true :=
    hFlush_hasKey (fun sid r k2 hr => runVicExtract_hasKey sid hr) hk
  simp [vicHStep, he, hm, hdup]

/-- The metadata behaviour of the shared `parse` shape. -/
theorem parseWith_meta (pre : String → String) (step : String → HState → String → HState)
    (extract : String → Reg → Reg) (content : String) (md : Metadata) :
    ((∃ p, parseWith pre step extract content md = Except.ok p) ↔ missingMeta md = []) ∧
    (missingMeta md ≠ [] →
      parseWith pre step extract content md =
        Except.error (missingMetaMsg (missingMeta md))) := by
  by_cases hm : (missingMeta md).isEmpty = true
  · have hm2 : missingMeta md = [] := List.isEmpty_iff.mp hm
    constructor
    · constructor
      · intro _
        exact hm2
      · intro _
        refine ⟨?_, ?_⟩
        · exact (parseActOf (parseWith pre step extract content md),
            parseRegOf (parseWith pre step extract content md))
        · unfold parseWith
          simp only [hm, Bool.not_true, Bool.false_eq_true, if_false]
          rfl
    · intro hne
      exact absurd hm2 hne
  · have hm2 : missingMeta md ≠ [] := fun he => hm (by rw [he]; rfl)
    constructor
    · constructor
      · intro hex
        obtain ⟨p, hp⟩ := hex
        unfold parseWith at hp
        rw [if_pos] at hp
        · exact absurd hp (by simp)
        · simp only [Bool.not_eq_true', Bool.not_eq_false] at *
          simp [hm]
      · intro he
        exact absurd he hm2
    · intro _
      unfold parseWith
      rw [if_pos]
      simp only [Bool.not_eq_true', Bool.not_eq_false] at *
      simp [hm]

/-! ## The claims -/
/-- C1 (amended): `parse_cross_references("see section 21", ...)` finds
nothing, because the section pattern `(?:section|s\.|s\s)(\d+...)` only
allows whitespace after a bare `s`, never after the word `section`; a
citation the pattern does match, such as `"see s 21"`, yields exactly one
CrossReference with target `{source_id}/s21`, section `"21"` and
confidence 0.9; and in general every cross reference produced by the
section pass has confidence 0.9 and target `{source_id}/s{N}`. -/
theorem claimC1 :
    parseCrossReferences "see s 21" "/au-victoria/ohs/2004" = [c1Ref] ∧
    conf09 = (9 : Rat) / 10 ∧
    (∀ (content src : String) (ref : CrossReference), ref ∈ sectionPassRefs content src →
      ref.confidence = conf09 ∧
      ∃ n, ref.sectionRef = some n ∧ ref.targetCanonicalId = some (src ++ "/s" ++ n)) :=
  ⟨by decide, conf09_eq, fun _ _ _ h => sectionPassRefs_mem h⟩

/-- C1 witness: the general section-pass property of `claimC1, applied
to the one reference found in `"see s 21"`. -/
theorem claimC1_witness :
    c1Ref.confidence = conf09 ∧
    ∃ n, c1Ref.sectionRef = some n ∧
      c1Ref.targetCanonicalId = some ("/au-victoria/ohs/2004" ++ "/s" ++ n) :=
  claimC1.2.2 "see s 21" "/au-victoria/ohs/2004" c1Ref (by decide)

/-- C1 counterexample: on the claim input `"see section 21"` the finder
returns the empty list, not one CrossReference resolving to `/s21`. -/
theorem claimC1_cex :
    parseCrossReferences "see section 21" "/au-victoria/ohs/2004" = [] := by
  decide

/-- C2 (amended): for every string the validator accepts, rebuilding from
the parsed components yields the LOWERCASED input with its optional single
trailing newline removed (the `$` anchor of the pattern also matches just
before one trailing newline); the round trip returns the input itself
exactly when the input is already lowercase with no trailing newline. -/
theorem claimC2 : ∀ (s : String) (cid : CanonicalID),
    parseCanonicalId s = some cid →
    buildCanonicalId cid.jurisdiction cid.codeType cid.year cid.sectionPart =
        Except.ok (chompNL (pyLower s)) ∧
    (chompNL (pyLower s) = s →
      buildCanonicalId cid.jurisdiction cid.codeType cid.year cid.sectionPart =
        Except.ok s) :=
  fun _ _ h => ⟨parse_build_lower h, fun hl => by rw [parse_build_lower h, hl]⟩

/-- C2 witness: the round trip at `/au-victoria/ohs/2004/s21`, and the
rebuild of the newline-terminated accepted input `"/au-victoria/ohs/2004\n"`. -/
theorem claimC2_witness :
    (buildCanonicalId "au-victoria" "ohs" "2004" (some "s21") =
        Except.ok (chompNL (pyLower "/au-victoria/ohs/2004/s21")) ∧
      (chompNL (pyLower "/au-victoria/ohs/2004/s21") = "/au-victoria/ohs/2004/s21" →
        buildCanonicalId "au-victoria" "ohs" "2004" (some "s21") =
          Except.ok "/au-victoria/ohs/2004/s21")) ∧
    buildCanonicalId "au-victoria" "ohs" "2004" (some "s21") =
      Except.ok "/au-victoria/ohs/2004/s21" ∧
    buildCanonicalId "au-victoria" "ohs" "2004" none =
      Except.ok (chompNL (pyLower "/au-victoria/ohs/2004\n")) :=
  ⟨claimC2 "/au-victoria/ohs/2004/s21" ⟨"au-victoria", "ohs", "2004", some "s21"⟩
      (by decide),
   (claimC2 "/au-victoria/ohs/2004/s21" ⟨"au-victoria", "ohs", "2004", some "s21"⟩
      (by decide)).2 (by decide),
   (claimC2 "/au-victoria/ohs/2004\n" ⟨"au-victoria", "ohs", "2004", none⟩
      (by decide)).1⟩

/-- C2 counterexample: the validator accepts the uppercase string
`/AU-VICTORIA/OHS/2004` (parsing is case-insensitive), but rebuilding from
its components yields the lowercase form, which differs from the input. -/
theorem claimC2_cex :
    parseCanonicalId "/AU-VICTORIA/OHS/2004" =
      some ⟨"au-victoria", "ohs", "2004", none⟩ ∧
    buildCanonicalId "au-victoria" "ohs" "2004" none =
      Except.ok "/au-victoria/ohs/2004" ∧
    ("/au-victoria/ohs/2004" : String) ≠ "/AU-VICTORIA/OHS/2004" :=
  ⟨by decide, rfl, by decide⟩

/-- C3 (amended): at each marker the buffered lines are space-joined onto
the open Paragraph if one is open, else onto the open Subsection; but when
NEITHER is open the buffer is left untouched rather than discarded, so
preface lines preceding the first marker are flushed into the first node
opened later and do appear in its content (shown concretely: "preface"
ends up inside subsection /1 content). -/
theorem claimC3 :
    (∀ (st : ExState) (pid : String), st.contentLines ≠ [] →
      st.currentParagraph = some pid →
      exFlush st = { st with
        registry := rUpd st.registry pid (fun n =>
          { n with content := n.content ++ " " ++ joinSep " " st.contentLines }),
        contentLines := [] }) ∧
    (∀ (st : ExState) (sid : String), st.contentLines ≠ [] →
      st.currentParagraph = none → st.currentSubsection = some sid →
      exFlush st = { st with
        registry := rUpd st.registry sid (fun n =>
          { n with content := n.content ++ " " ++ joinSep " " st.contentLines }),
        contentLines := [] }) ∧
    (∀ st : ExState, st.currentParagraph = none → st.currentSubsection = none →
      exFlush st = st) ∧
    (rGet (runFedExtract "/a/s1" c3Reg) "/a/s1/1").map (fun n => n.content) =
      some " first preface more" := by
  refine ⟨?_, ?_, ?_, by decide⟩
  · intro st pid h1 h2
    unfold exFlush
    cases hcl : st.contentLines with
    | nil => exact absurd hcl h1
    | cons a b =>
      rw [h2]
  · intro st sid h1 h2 h3
    unfold exFlush
    cases hcl : st.contentLines with
    | nil => exact absurd hcl h1
    | cons a b =>
      rw [h2, h3]
  · intro st h2 h3
    unfold exFlush
    cases hcl : st.contentLines with
    | nil => rfl
    | cons a b =>
      rw [h2, h3]

/-- C3 witness: the paragraph-flush case of `claimC3` at a concrete
one-node state. -/
theorem claimC3_witness :
    exFlush ⟨rSet [] "/a/s1/a" (mkParagraph "/a/s1/a" "x" none "a" "/a/s1"),
        none, some "/a/s1/a", ["tail"]⟩ =
      { (⟨rSet [] "/a/s1/a" (mkParagraph "/a/s1/a" "x" none "a" "/a/s1"),
          none, some "/a/s1/a", ["tail"]⟩ : ExState) with
        registry := rUpd (rSet [] "/a/s1/a" (mkParagraph "/a/s1/a" "x" none "a" "/a/s1"))
          "/a/s1/a" (fun n =>
            { n with content := n.content ++ " " ++ joinSep " " ["tail"] }),
        contentLines := [] } :=
  claimC3.1 _ "/a/s1/a" (by decide) rfl

/-- C3 counterexample: the preface line "preface" (buffered while no node
was open) appears inside subsection /1 content, contradicting the claim
that such lines appear in no Subsection or Paragraph node. -/
theorem claimC3_cex :
    (rGet (runFedExtract "/a/s1" c3Reg) "/a/s1/1").map (fun n => n.content) =
      some " first preface more" ∧
    containsSub "preface".data
      ((((rGet (runFedExtract "/a/s1" c3Reg) "/a/s1/1").map
        (fun n => n.content)).getD "").data) = true :=
  ⟨by decide, by decide⟩

/-- C4 (amended): the federal Part pattern requires the literal prefix
`CollapsePart ` (with a space), so the line `Part1‑1—Introduction` creates
no node at all; and no hyphen normalization exists: for the matching line
`CollapsePart 1‑1—Introduction` the Part is keyed `part-1‑1` with the
U+2011 non-breaking hyphen preserved in both ID and title, and no key
`part-1-1` (ASCII) exists. -/
theorem claimC4 :
    parseOk (fedParse c4NoCollapseLine sampleFedMeta) = true ∧
    (parseRegOf (fedParse c4NoCollapseLine sampleFedMeta)).map (fun p => p.1) =
      ["/au-federal/fwa/2009"] ∧
    hasKey (parseRegOf (fedParse c4NoCollapseLine sampleFedMeta))
      "/au-federal/fwa/2009/part-1-1" = false ∧
    (parseRegOf (fedParse c4CollapseLine sampleFedMeta)).map (fun p => p.1) =
      ["/au-federal/fwa/2009", c4PartIdNB] ∧
    (rGet (parseRegOf (fedParse c4CollapseLine sampleFedMeta)) c4PartIdNB).map
      (fun n => n.title) = some ("Part 1" ++ nbS ++ "1" ++ emS ++ "Introduction") ∧
    hasKey (parseRegOf (fedParse c4CollapseLine sampleFedMeta))
      "/au-federal/fwa/2009/part-1-1" = false :=
  ⟨by decide, by decide, by decide, by decide, by decide, by decide⟩

/-- C4 counterexample: parsing federal text containing the line
`Part1‑1—Introduction` leaves the registry with only the Act — there is no
Part node keyed `part-1-1` (nor any Part node at all). -/
theorem claimC4_cex :
    parseRegOf (fedParse c4NoCollapseLine sampleFedMeta) =
      [("/au-federal/fwa/2009", actFromMeta sampleFedMeta)] ∧
    hasKey (parseRegOf (fedParse c4NoCollapseLine sampleFedMeta))
      "/au-federal/fwa/2009/part-1-1" = false :=
  ⟨by decide, by decide⟩

/-- C5 (confirmed): every registry either dialect parse returns is
referentially closed — each ID in any node list field children_ids / parts /
sections / divisions / subsections / paragraphs lists is a key of the same
registry, and the parent_id of every non-Act node is a key. -/
theorem claimC5 : ∀ (content : String) (md : Metadata),
    (∀ a r, fedParse content md = Except.ok (a, r) → regClosed r = true) ∧
    (∀ a r, vicParse content md = Except.ok (a, r) → regClosed r = true) := by
  intro content md
  constructor
  · intro a r h
    exact parseWith_closed (fun actId st line hst => fedHStep_inv hst)
      (fun sid r2 hr => runFedExtract_closed sid hr)
      (fun sid r2 k2 hr => runFedExtract_hasKey sid hr) h
  · intro a r h
    exact parseWith_closed (fun actId st line hst => vicHStep_inv hst)
      (fun sid r2 hr => runVicExtract_closed sid hr)
      (fun sid r2 k2 hr => runVicExtract_hasKey sid hr) h

/-- C5 witness: closure of the registries parsed from two small sample
documents, one per dialect. -/
theorem claimC5_witness :
    regClosed (parseRegOf (fedParse c5FedText sampleFedMeta)) = true ∧
    regClosed (parseRegOf (vicParse c5VicText sampleVicMeta)) = true :=
  ⟨(claimC5 c5FedText sampleFedMeta).1 (parseActOf (fedParse c5FedText sampleFedMeta))
      (parseRegOf (fedParse c5FedText sampleFedMeta)) rfl,
   (claimC5 c5VicText sampleVicMeta).2 (parseActOf (vicParse c5VicText sampleVicMeta))
      (parseRegOf (vicParse c5VicText sampleVicMeta)) rfl⟩

/-- C6 (amended): within one parse a registry key, once inserted, is never
REMOVED — every key present after processing a prefix of the lines is
still present after the remaining lines and the final flush, for both
dialects (whose parses are exactly these folds); but a key CAN be
reassigned to a different node when a later construction derives the same
ID (see the counterexample). -/
theorem claimC6 :
    (∀ (actId : String) (st : HState) (lines1 lines2 : List String) (k : String),
      (hasKey (lines1.foldl (fedHStep actId) st).registry k = true →
        hasKey (hFlush runFedExtract ((lines1 ++ lines2).foldl (fedHStep actId) st)).registry
          k = true) ∧
      (hasKey (lines1.foldl (vicHStep actId) st).registry k = true →
        hasKey (hFlush runVicExtract ((lines1 ++ lines2).foldl (vicHStep actId) st)).registry
          k = true)) ∧
    (∀ (content : String) (md : Metadata), missingMeta md = [] →
      parseRegOf (fedParse content md) =
        (hFlush runFedExtract ((linesOf (fedPreprocess content)).foldl
          (fedHStep (actFromMeta md).id) (hStart md))).registry ∧
      parseRegOf (vicParse content md) =
        (hFlush runVicExtract ((linesOf (vicPreprocess content)).foldl
          (vicHStep (actFromMeta md).id) (hStart md))).registry) := by
  constructor
  · intro actId st lines1 lines2 k
    constructor
    · intro h
      rw [List.foldl_append]
      exact hFlush_hasKey (fun sid r k2 hr => runFedExtract_hasKey sid hr)
        (foldl_fedH_hasKey lines2 h)
    · intro h
      rw [List.foldl_append]
      exact hFlush_hasKey (fun sid r k2 hr => runVicExtract_hasKey sid hr)
        (foldl_vicH_hasKey lines2 h)
  · intro content md hm
    have hm2 : (missingMeta md).isEmpty = true := List.isEmpty_iff.mpr hm
    constructor
    · unfold fedParse parseWith parseRegOf hStart
      simp only [hm2, Bool.not_true, Bool.false_eq_true, if_false]
    · unfold vicParse parseWith parseRegOf hStart
      simp only [hm2, Bool.not_true, Bool.false_eq_true, if_false]

/-- C6 witness: key `/s1`, inserted while processing the first lines of a
federal document, survives the remaining lines and the final flush. -/
theorem claimC6_witness :
    hasKey ((["", "1  A"].foldl (fedHStep "/au-federal/fwa/2009")
      (hStart sampleFedMeta)).registry) "/au-federal/fwa/2009/s1" = true ∧
    hasKey ((hFlush runFedExtract ((["", "1  A"] ++ ["", "1  B"]).foldl
      (fedHStep "/au-federal/fwa/2009") (hStart sampleFedMeta))).registry)
      "/au-federal/fwa/2009/s1" = true :=
  ⟨by decide,
   (claimC6.1 "/au-federal/fwa/2009" (hStart sampleFedMeta)
      ["", "1  A"] ["", "1  B"] "/au-federal/fwa/2009/s1").1 (by decide)⟩

/-- C6 counterexample: in the single federal parse of `"1  A\n1  B"` (its
preprocessed lines are exactly `["", "1  A", "", "1  B"]`), the key `/s1`
maps to the Section titled "A" after the first two lines and to a
DIFFERENT node titled "B" at the end of the same fold — the key is
reassigned within one parse. -/
theorem claimC6_cex :
    linesOf (fedPreprocess "1  A\n1  B") = ["", "1  A", "", "1  B"] ∧
    (["", "1  A", "", "1  B"] : List String) = ["", "1  A"] ++ ["", "1  B"] ∧
    (rGet ((["", "1  A"].foldl (fedHStep "/au-federal/fwa/2009")
        (hStart sampleFedMeta)).registry) "/au-federal/fwa/2009/s1").map
      (fun n => n.title) = some "A" ∧
    (rGet (((["", "1  A"] ++ ["", "1  B"]).foldl (fedHStep "/au-federal/fwa/2009")
        (hStart sampleFedMeta)).registry) "/au-federal/fwa/2009/s1").map
      (fun n => n.title) = some "B" ∧
    ("A" : String) ≠ "B" :=
  ⟨by decide, by decide, by decide, by decide, by decide⟩

/-- C7 (confirmed): in the Victorian extractor, a line `" (m) text"` with
`m` one of the ten Roman numerals i..x never creates a node — the whole
step only appends the stripped line to the content buffer (later flushed
into the open node) — while for each of the letters a, b, c, aa, ba, z
the step creates a Paragraph node keyed by that letter under the open
subsection (or the section), for every machine state. -/
theorem claimC7 :
    (∀ m ∈ romanMarkers, ∀ (sid : String) (st : ExState),
      vicExStep sid st (" (" ++ m ++ ") text") =
        { st with contentLines := st.contentLines ++ ["(" ++ m ++ ") text"] }) ∧
    (∀ m ∈ createMarkers, ∀ (sid : String) (st : ExState),
      vicExStep sid st (" (" ++ m ++ ") text") =
        openParagraph sid (exFlush st) st.currentSubsection m "text" ∧
      rGet (vicExStep sid st (" (" ++ m ++ ") text")).registry
          (paraTargetId sid st.currentSubsection m) =
        some (mkParagraph (paraTargetId sid st.currentSubsection m) "text"
          st.currentSubsection m (paraParent sid st.currentSubsection)) ∧
      (vicExStep sid st (" (" ++ m ++ ") text")).currentParagraph =
        some (paraTargetId sid st.currentSubsection m)) := by
  constructor
  · intro m hm
    fin_cases hm <;> exact fun sid st => rfl
  · intro m hm
    fin_cases hm <;>
      exact fun sid st =>
        ⟨rfl, openParagraph_rGet _ _ _ _ _, openParagraph_currentPara _ _ _ _ _⟩

/-- C7 witness: the Roman case at "ii" and the creating case at "a", in a
concrete state with an open subsection. -/
theorem claimC7_witness :
    vicExStep "/a/s1" ⟨rSet [] "/a/s1" c3Section, none, none, []⟩ " (ii) text" =
      { (⟨rSet [] "/a/s1" c3Section, none, none, []⟩ : ExState) with
          contentLines := ([] : List String) ++ ["(ii) text"] } ∧
    (vicExStep "/a/s1" ⟨rSet [] "/a/s1" c3Section, none, none, []⟩
        " (a) text").currentParagraph = some (paraTargetId "/a/s1" none "a") :=
  ⟨claimC7.1 "ii" (by decide) "/a/s1" ⟨rSet [] "/a/s1" c3Section, none, none, []⟩,
   (claimC7.2 "a" (by decide) "/a/s1" ⟨rSet [] "/a/s1" c3Section, none, none, []⟩).2.2⟩

/-- C8 (confirmed): when a Victorian Part heading derives a Part ID that
is already a registry key, the step only flushes and then reuses that ID
as the current Part — no node is created, nothing is appended; so two
consecutive identical Part headings yield exactly one Part node, recorded
once in the Act parts and children_ids. -/
theorem claimC8 :
    (∀ (actId : String) (st : HState) (line : String) (num title : List Char),
      vicPartMatch (stripS line).data = some (num, title) →
      hasKey st.registry (actId ++ "/part-" ++ String.mk num) = true →
      vicHStep actId st line =
        { hFlush runVicExtract st with
            currentPart := some (actId ++ "/part-" ++ String.mk num),
            currentDivision := none }) ∧
    parseOk (vicParse c8Text sampleVicMeta) = true ∧
    (parseRegOf (vicParse c8Text sampleVicMeta)).map (fun p => p.1) =
      ["/au-victoria/ohs/2004", "/au-victoria/ohs/2004/part-2"] ∧
    (rGet (parseRegOf (vicParse c8Text sampleVicMeta)) "/au-victoria/ohs/2004").map
      (fun n => n.parts) = some ["/au-victoria/ohs/2004/part-2"] ∧
    (rGet (parseRegOf (vicParse c8Text sampleVicMeta)) "/au-victoria/ohs/2004").map
      (fun n => n.childrenIds) = some ["/au-victoria/ohs/2004/part-2"] :=
  ⟨fun _ _ _ _ _ hm hk => vicHStep_dedup hm hk, by decide, by decide, by decide, by decide⟩

/-- C8 witness: stepping the same Part heading twice from the initial
Victorian state — the second step takes the deduplication branch. -/
theorem claimC8_witness :
    vicHStep "/au-victoria/ohs/2004"
        (vicHStep "/au-victoria/ohs/2004" (hStart sampleVicMeta)
          ("Part 2" ++ emS ++ "The Authority"))
        ("Part 2" ++ emS ++ "The Authority") =
      { hFlush runVicExtract
          (vicHStep "/au-victoria/ohs/2004" (hStart sampleVicMeta)
            ("Part 2" ++ emS ++ "The Authority")) with
          currentPart := some ("/au-victoria/ohs/2004" ++ "/part-" ++ String.mk ['2']),
          currentDivision := none } :=
  claimC8.1 "/au-victoria/ohs/2004"
    (vicHStep "/au-victoria/ohs/2004" (hStart sampleVicMeta)
      ("Part 2" ++ emS ++ "The Authority"))
    ("Part 2" ++ emS ++ "The Authority") ['2'] "The Authority".data
    (by decide) (by decide)

/-- C9 (confirmed): both dialect parses fails if and only if one of the
four required metadata keys (canonical_id, jurisdiction, year, title) is
absent, and in that case the error is exactly the message naming the
absent keys; with all four present no missing-metadata error occurs. -/
theorem claimC9 : ∀ (content : String) (md : Metadata),
    ((∃ p, fedParse content md = Except.ok p) ↔ missingMeta md = []) ∧
    ((∃ p, vicParse content md = Except.ok p) ↔ missingMeta md = []) ∧
    (missingMeta md ≠ [] →
      fedParse content md = Except.error (missingMetaMsg (missingMeta md)) ∧
      vicParse content md = Except.error (missingMetaMsg (missingMeta md))) :=
  fun content md =>
    ⟨(parseWith_meta fedPreprocess fedHStep runFedExtract content md).1,
     (parseWith_meta vicPreprocess vicHStep runVicExtract content md).1,
     fun h =>
      ⟨(parseWith_meta fedPreprocess fedHStep runFedExtract content md).2 h,
       (parseWith_meta vicPreprocess vicHStep runVicExtract content md).2 h⟩⟩

/-- C9 witness: with "year" absent both parsers return the error naming
exactly `year`; with all four keys present the federal parse succeeds. -/
theorem claimC9_witness :
    fedParse "" mdMissingYear =
      Except.error (missingMetaMsg (missingMeta mdMissingYear)) ∧
    vicParse "" mdMissingYear =
      Except.error (missingMetaMsg (missingMeta mdMissingYear)) ∧
    missingMeta mdMissingYear = ["year"] ∧
    (∃ p, fedParse "" sampleFedMeta = Except.ok p) :=
  ⟨((claimC9 "" mdMissingYear).2.2 (by decide)).1,
   ((claimC9 "" mdMissingYear).2.2 (by decide)).2,
   by decide,
   (claimC9 "" sampleFedMeta).1.mpr (by decide)⟩

/-- C10 (confirmed): `build_canonical_id` validates only the jurisdiction
and code type against the closed sets — its success is exactly their
membership, independent of year and section — so with the 2-digit year
"20" it succeeds while `validate_canonical_id` rejects its output. -/
theorem claimC10 :
    (∀ (j c y : String) (sec : Option String),
      exOk (buildCanonicalId j c y sec) =
        (validJurisdictions.contains (pyLower j) &&
          validCodeTypes.contains (pyLower c))) ∧
    buildCanonicalId "au-victoria" "ohs" "20" none = Except.ok "/au-victoria/ohs/20" ∧
    validateCanonicalId "/au-victoria/ohs/20" = false := by
  refine ⟨?_, rfl, by decide⟩
  intro j c y sec
  unfold buildCanonicalId
  cases hb1 : validJurisdictions.contains (pyLower j) with
  | false =>
    simp only [hb1]
    rfl
  | true =>
    cases hb2 : validCodeTypes.contains (pyLower c) with
    | false =>
      simp only [hb1, hb2]
      rfl
    | true =>
      simp only [hb1, hb2]
      cases sec with
      | none => rfl
      | some t => rfl

end FairShake

